import Mathlib

/-!
A verification development for the `deploy-syft-space` repository: a batch CLI
that synchronizes local dataset directories with a remote REST API.

The Python sources are shallowly embedded as Lean definitions:

* `src/utils.py`   — `slugify`, `load_progress`, `save_progress`
* `src/client.py`  — `SyftClient.create_dataset`, `get_dataset`,
  `delete_dataset`, `delete_endpoint`
* `src/commands/publish.py` and `src/main.py` — the two duplicated
  publish-selection predicates
* `src/commands/deploy.py` — `_resolve_description` and `cmd_deploy`

HTTP traffic is modelled by passing the server's response (status code and
body text) as an explicit argument; filesystem state is a map from paths to
file contents; the effects a command performs (API calls, file writes) are
recorded as an explicit event trace.  JSON serialisation follows CPython's
`json.dump(..., indent=2)` with its default `ensure_ascii=True` escaping
(including surrogate pairs), and parsing follows `json.load`; JSON numbers
are modelled as integers (no floats appear in any file this program writes).
Python string predicates (`lower`, `strip`, `\w`, `\s`) are modelled
exactly on ASCII, which is the alphabet of every concrete input used below.
-/

/-! ## Character helpers -/

/-- Decimal digit test, `'0'..'9'`. -/
def isDigitC (c : Char) : Bool := 48 ≤ c.toNat && c.toNat ≤ 57

/-- JSON whitespace, per `json.load`: space, tab, newline, carriage return. -/
def isWsChar (c : Char) : Bool := c = ' ' || c = '\t' || c = '\n' || c = '\r'

/-- The character for decimal digit `d`. -/
def digitChar (d : Nat) : Char := Char.ofNat (48 + d)

/-- Decimal digits of `n`, most significant first, prepended to `acc`. -/
def natDigitsAux (n : Nat) (acc : List Char) : List Char :=
  if h : n < 10 then digitChar n :: acc
  else natDigitsAux (n / 10) (digitChar (n % 10) :: acc)
termination_by n
decreasing_by exact Nat.div_lt_self (by omega) (by omega)

/-- Decimal digits of `n`, as Python's `repr` prints a nonnegative int. -/
def natDigits (n : Nat) : List Char := natDigitsAux n []

/-- Python `repr` of an int: a minus sign for negatives, then digits. -/
def intDigits (n : Int) : List Char :=
  if n < 0 then '-' :: natDigits n.natAbs else natDigits n.toNat

/-- Lowercase hex digit character for `d < 16`. -/
def hexDigitChar (d : Nat) : Char :=
  if d < 10 then Char.ofNat (48 + d) else Char.ofNat (87 + d)

/-- Four lowercase hex digits of `n % 65536`, as CPython's `\uXXXX` escapes. -/
def hex4 (n : Nat) : List Char :=
  [hexDigitChar (n / 4096 % 16), hexDigitChar (n / 256 % 16),
   hexDigitChar (n / 16 % 16), hexDigitChar (n % 16)]

/-- CPython `json` `ensure_ascii` escaping of one character
(`py_encode_basestring_ascii`): quote and backslash escaped, the five
short control escapes, printable ASCII verbatim, everything else as
`\uXXXX`, with a surrogate pair for code points above `0xFFFF`. -/
def escChar (c : Char) : List Char :=
  if c = '"' then ['\\', '"']
  else if c = '\\' then ['\\', '\\']
  else if c = '\x08' then ['\\', 'b']
  else if c = '\x0c' then ['\\', 'f']
  else if c = '\n' then ['\\', 'n']
  else if c = '\r' then ['\\', 'r']
  else if c = '\t' then ['\\', 't']
  else if 32 ≤ c.toNat && c.toNat < 127 then [c]
  else if c.toNat < 65536 then '\\' :: 'u' :: hex4 c.toNat
  else ('\\' :: 'u' :: hex4 (55296 + (c.toNat - 65536) / 1024)) ++
       ('\\' :: 'u' :: hex4 (56320 + (c.toNat - 65536) % 1024))

/-- Escaped characters of a string body followed by the closing quote. -/
def escList : List Char → List Char
  | [] => ['"']
  | c :: cs => escChar c ++ escList cs

/-- A full JSON string literal for `s`. -/
def escString (s : String) : List Char := '"' :: escList s.data

/-- The newline-plus-indent that `json.dump(..., indent=2)` emits before an
item at nesting level `lvl`. -/
def nlInd (lvl : Nat) : List Char := '\n' :: List.replicate (2 * lvl) ' '

/-! ## JSON values

JSON values as this program reads and writes them.  Numbers are integers:
no file this program writes contains a float, and IEEE semantics are out of
scope of the embedding. -/

inductive JsonVal where
  | null
  | bool (b : Bool)
  | num (n : Int)
  | str (s : String)
  | arr (items : List JsonVal)
  | obj (fields : List (String × JsonVal))

/-- Python truthiness of a JSON value: `None`, `False`, `0`, `""`, `[]`
and the empty dict are falsy. -/
def pyTruthy : JsonVal → Bool
  | .null => false
  | .bool b => b
  | .num n => n != 0
  | .str s => s != ""
  | .arr items => !items.isEmpty
  | .obj fields => !fields.isEmpty

/-- Python `dict.get`: the value stored under `k`, or `None` when absent. -/
def dictGet (k : String) : List (String × JsonVal) → Option JsonVal
  | [] => none
  | (k', v) :: rest => if k' = k then some v else dictGet k rest

/-- Python truthiness of an `Optional` JSON value (`None` is falsy). -/
def pyTruthyOpt : Option JsonVal → Bool
  | none => false
  | some v => pyTruthy v

/-! ## The printer: `json.dump(obj, f, indent=2)`

With a non-`None` indent CPython separates items with `",\n" + indent` and
key from value with `": "`; empty containers print as `[]` and `\x7b\x7d`
with no inner newline. -/

mutual

/-- The exact text `json.dump(v, f, indent=2)` writes at nesting level
`lvl`. -/
def printVal : JsonVal → Nat → List Char
  | .null, _ => ['n', 'u', 'l', 'l']
  | .bool true, _ => ['t', 'r', 'u', 'e']
  | .bool false, _ => ['f', 'a', 'l', 's', 'e']
  | .num n, _ => intDigits n
  | .str s, _ => escString s
  | .arr [], _ => ['[', ']']
  | .arr (v :: vs), lvl =>
      '[' :: (printArrItems (v :: vs) (lvl + 1) ++ nlInd lvl ++ [']'])
  | .obj [], _ => ['{', '}']
  | .obj (kv :: kvs), lvl =>
      '{' :: (printObjItems (kv :: kvs) (lvl + 1) ++ nlInd lvl ++ ['}'])

/-- Array items, each preceded by its newline-and-indent, separated by
commas. -/
def printArrItems : List JsonVal → Nat → List Char
  | [], _ => []
  | [v], lvl => nlInd lvl ++ printVal v lvl
  | v :: v' :: vs, lvl =>
      nlInd lvl ++ printVal v lvl ++ ',' :: printArrItems (v' :: vs) lvl

/-- Object items, `"key": value`, separated by commas. -/
def printObjItems : List (String × JsonVal) → Nat → List Char
  | [], _ => []
  | [(k, v)], lvl => nlInd lvl ++ escString k ++ ':' :: ' ' :: printVal v lvl
  | (k, v) :: kv' :: kvs, lvl =>
      nlInd lvl ++ escString k ++ ':' :: ' ' :: printVal v lvl ++
        ',' :: printObjItems (kv' :: kvs) lvl

end

/-! ## The parser: a model of `json.load` -/

/-- Drop leading JSON whitespace. -/
def skipWs : List Char → List Char
  | [] => []
  | c :: cs => if isWsChar c then skipWs cs else c :: cs

/-- Value of a hex digit, case-insensitive as in CPython's scanner. -/
def hexVal (c : Char) : Option Nat :=
  if 48 ≤ c.toNat && c.toNat ≤ 57 then some (c.toNat - 48)
  else if 97 ≤ c.toNat && c.toNat ≤ 102 then some (c.toNat - 87)
  else if 65 ≤ c.toNat && c.toNat ≤ 70 then some (c.toNat - 55)
  else none

/-- The short escapes `json.load` accepts after a backslash. -/
def escDecode (c : Char) : Option Char :=
  if c = '"' then some '"'
  else if c = '\\' then some '\\'
  else if c = '/' then some '/'
  else if c = 'b' then some '\x08'
  else if c = 'f' then some '\x0c'
  else if c = 'n' then some '\n'
  else if c = 'r' then some '\r'
  else if c = 't' then some '\t'
  else none

/-- Prepend a decoded character to the result of parsing the remainder. -/
def strCons (c : Char) :
    Option (List Char × List Char) → Option (List Char × List Char)
  | none => none
  | some (content, rest) => some (c :: content, rest)

/-- String body scanner (`py_scanstring`, strict mode): the input starts
after the opening quote; returns the decoded content and the input after
the closing quote.  Raw control characters are rejected, `\uXXXX` escapes
are decoded, and a high surrogate must be followed by a low surrogate (the
Lean `Char` type cannot carry the lone surrogates CPython would tolerate;
this printer never emits them).  `fuel` bounds recursion; every step
consumes input, so any `fuel` above the input length is enough. -/
def parseStrBody : Nat → List Char → Option (List Char × List Char)
  | 0, _ => none
  | _ + 1, [] => none
  | fuel + 1, c :: cs =>
    if c = '"' then some ([], cs)
    else if c = '\\' then
      match cs with
      | [] => none
      | e :: cs2 =>
        if e = 'u' then
          match cs2 with
          | h1 :: h2 :: h3 :: h4 :: cs3 =>
            match hexVal h1, hexVal h2, hexVal h3, hexVal h4 with
            | some a, some b, some c1, some d =>
              let n := ((a * 16 + b) * 16 + c1) * 16 + d
              if 55296 ≤ n ∧ n < 56320 then
                match cs3 with
                | '\\' :: 'u' :: g1 :: g2 :: g3 :: g4 :: cs4 =>
                  match hexVal g1, hexVal g2, hexVal g3, hexVal g4 with
                  | some a2, some b2, some c2, some d2 =>
                    let m := ((a2 * 16 + b2) * 16 + c2) * 16 + d2
                    if 56320 ≤ m ∧ m < 57344 then
                      strCons (Char.ofNat (65536 + (n - 55296) * 1024 + (m - 56320)))
                        (parseStrBody fuel cs4)
                    else none
                  | _, _, _, _ => none
                | _ => none
              else if 56320 ≤ n ∧ n < 57344 then none
              else strCons (Char.ofNat n) (parseStrBody fuel cs3)
            | _, _, _, _ => none
          | _ => none
        else
          match escDecode e with
          | some d => strCons d (parseStrBody fuel cs2)
          | none => none
    else if c.toNat < 32 then none
    else strCons c (parseStrBody fuel cs)

/-- Accumulate a run of decimal digits onto `a`. -/
def parseDigitsGo (a : Nat) : List Char → Nat × List Char
  | [] => (a, [])
  | c :: cs =>
    if isDigitC c then parseDigitsGo (a * 10 + (c.toNat - 48)) cs
    else (a, c :: cs)

/-- Parse a nonempty run of decimal digits. -/
def parseNat (l : List Char) : Option (Nat × List Char) :=
  match l with
  | [] => none
  | c :: _ => if isDigitC c then some (parseDigitsGo 0 l) else none

mutual

/-- Parse one JSON value; the input has already had leading whitespace
skipped.  `fuel` bounds nesting; `jsonParse` passes one more than the
input length, which every value fits under. -/
def parseVal : Nat → List Char → Option (JsonVal × List Char)
  | 0, _ => none
  | _ + 1, [] => none
  | fuel + 1, c :: cs =>
    if c = 'n' then
      match cs with
      | 'u' :: 'l' :: 'l' :: r => some (.null, r)
      | _ => none
    else if c = 't' then
      match cs with
      | 'r' :: 'u' :: 'e' :: r => some (.bool true, r)
      | _ => none
    else if c = 'f' then
      match cs with
      | 'a' :: 'l' :: 's' :: 'e' :: r => some (.bool false, r)
      | _ => none
    else if c = '"' then
      match parseStrBody (cs.length + 1) cs with
      | some (content, r) => some (.str (String.mk content), r)
      | none => none
    else if c = '-' then
      match parseNat cs with
      | some (n, r) => some (.num (-(n : Int)), r)
      | none => none
    else if isDigitC c then
      match parseNat (c :: cs) with
      | some (n, r) => some (.num (n : Int), r)
      | none => none
    else if c = '[' then
      match skipWs cs with
      | ']' :: r => some (.arr [], r)
      | r =>
        match parseArrItems fuel r with
        | some (items, r2) => some (.arr items, r2)
        | none => none
    else if c = '{' then
      match skipWs cs with
      | '}' :: r => some (.obj [], r)
      | r =>
        match parseObjItems fuel r with
        | some (fields, r2) => some (.obj fields, r2)
        | none => none
    else none

/-- Parse the items of a nonempty array, consuming the closing bracket. -/
def parseArrItems : Nat → List Char → Option (List JsonVal × List Char)
  | 0, _ => none
  | fuel + 1, l =>
    match parseVal fuel l with
    | none => none
    | some (v, r) =>
      match skipWs r with
      | ',' :: r2 =>
        match parseArrItems fuel (skipWs r2) with
        | some (vs, r3) => some (v :: vs, r3)
        | none => none
      | ']' :: r2 => some ([v], r2)
      | _ => none

/-- Parse the fields of a nonempty object, consuming the closing brace. -/
def parseObjItems : Nat → List Char → Option (List (String × JsonVal) × List Char)
  | 0, _ => none
  | fuel + 1, l =>
    match l with
    | '"' :: cs =>
      match parseStrBody (cs.length + 1) cs with
      | none => none
      | some (k, r) =>
        match skipWs r with
        | ':' :: r2 =>
          match parseVal fuel (skipWs r2) with
          | none => none
          | some (v, r3) =>
            match skipWs r3 with
            | ',' :: r4 =>
              match parseObjItems fuel (skipWs r4) with
              | some (fields, r5) => some ((String.mk k, v) :: fields, r5)
              | none => none
            | '}' :: r4 => some ([(String.mk k, v)], r4)
            | _ => none
        | _ => none
    | _ => none

end

/-- Model of `json.load` on a whole document: parse one value and require
only whitespace to remain; `none` models a raised `JSONDecodeError`. -/
def jsonParse (s : String) : Option JsonVal :=
  match parseVal (s.length + 1) (skipWs s.data) with
  | some (v, rest) => if skipWs rest = [] then some v else none
  | none => none

/-- Model of `json.dump(v, f, indent=2)`: the exact document text. -/
def jsonDump (v : JsonVal) : String := String.mk (printVal v 0)

/-! ## Round-trip lemmas: digits -/

/-- A run of characters none of which can extend a number token. -/
def safeRest : List Char → Bool
  | [] => true
  | c :: _ => !isDigitC c

theorem natDigitsAux_eq (n : Nat) : ∀ acc, natDigitsAux n acc = natDigits n ++ acc := by
  induction n using Nat.strong_induction_on with
  | _ n ih =>
    intro acc
    by_cases h : n < 10
    · conv_lhs => rw [natDigitsAux]
      conv_rhs => rw [natDigits, natDigitsAux]
      simp [h]
    · have hlt : n / 10 < n := Nat.div_lt_self (by omega) (by omega)
      conv_lhs => rw [natDigitsAux]
      conv_rhs => rw [natDigits, natDigitsAux]
      simp only [h, dite_false]
      rw [ih _ hlt, ih _ hlt]
      simp

theorem natDigits_of_lt (n : Nat) (h : n < 10) : natDigits n = [digitChar n] := by
  rw [natDigits, natDigitsAux]
  simp [h]

theorem natDigits_of_ge (n : Nat) (h : ¬ n < 10) :
    natDigits n = natDigits (n / 10) ++ [digitChar (n % 10)] := by
  rw [natDigits, natDigitsAux]
  simp only [h, dite_false]
  rw [natDigitsAux_eq]

theorem digitChar_toNat (d : Nat) (h : d < 10) : (digitChar d).toNat = 48 + d := by
  interval_cases d <;> decide

theorem isDigitC_digitChar (d : Nat) (h : d < 10) : isDigitC (digitChar d) = true := by
  interval_cases d <;> decide

theorem natDigits_head (n : Nat) : ∃ d t, d < 10 ∧ natDigits n = digitChar d :: t := by
  induction n using Nat.strong_induction_on with
  | _ n ih =>
    by_cases h : n < 10
    · exact ⟨n, [], h, natDigits_of_lt n h⟩
    · have hlt : n / 10 < n := Nat.div_lt_self (by omega) (by omega)
      obtain ⟨d, t, hd, ht⟩ := ih _ hlt
      exact ⟨d, t ++ [digitChar (n % 10)], hd, by rw [natDigits_of_ge n h, ht]; rfl⟩

theorem parseDigitsGo_stop (a : Nat) (l : List Char) (h : safeRest l = true) :
    parseDigitsGo a l = (a, l) := by
  cases l with
  | nil => rfl
  | cons c cs =>
    simp only [safeRest, Bool.not_eq_true'] at h
    simp [parseDigitsGo, h]

theorem parseDigitsGo_digits (n : Nat) :
    ∀ a rest, parseDigitsGo a (natDigits n ++ rest) =
      parseDigitsGo (a * 10 ^ (natDigits n).length + n) rest := by
  induction n using Nat.strong_induction_on with
  | _ n ih =>
    intro a rest
    by_cases h : n < 10
    · rw [natDigits_of_lt n h]
      simp only [List.cons_append, List.nil_append, List.length_cons, List.length_nil]
      rw [parseDigitsGo]
      simp [isDigitC_digitChar n h, digitChar_toNat n h]
    · have hlt : n / 10 < n := Nat.div_lt_self (by omega) (by omega)
      rw [natDigits_of_ge n h]
      rw [List.append_assoc, List.cons_append, List.nil_append]
      rw [ih _ hlt]
      rw [parseDigitsGo]
      simp only [isDigitC_digitChar _ (Nat.mod_lt n (by omega)), if_true,
        digitChar_toNat _ (Nat.mod_lt n (by omega))]
      have hcan : 48 + n % 10 - 48 = n % 10 := by omega
      rw [hcan]
      have harg : (a * 10 ^ (natDigits (n / 10)).length + n / 10) * 10 + n % 10 =
          a * 10 ^ ((natDigits (n / 10)).length + 1) + n := by
        have hmod : n / 10 * 10 + n % 10 = n := by omega
        have hpow : 10 ^ ((natDigits (n / 10)).length + 1) =
            10 ^ (natDigits (n / 10)).length * 10 := pow_succ 10 _
        rw [hpow]
        calc (a * 10 ^ (natDigits (n / 10)).length + n / 10) * 10 + n % 10 =
            a * (10 ^ (natDigits (n / 10)).length * 10) + (n / 10 * 10 + n % 10) := by ring
          _ = a * (10 ^ (natDigits (n / 10)).length * 10) + n := by rw [hmod]
      rw [harg]
      congr 1
      simp

theorem parseNat_natDigits (n : Nat) (rest : List Char) (h : safeRest rest = true) :
    parseNat (natDigits n ++ rest) = some (n, rest) := by
  obtain ⟨d, t, hd, ht⟩ := natDigits_head n
  rw [parseNat.eq_def]
  rw [ht]
  simp only [List.cons_append]
  rw [if_pos (isDigitC_digitChar d hd)]
  rw [← List.cons_append, ← ht, parseDigitsGo_digits, parseDigitsGo_stop _ _ h]
  simp

/-! ## Round-trip lemmas: strings -/

theorem char_valid_cases (c : Char) :
    c.toNat < 55296 ∨ (57343 < c.toNat ∧ c.toNat < 1114112) := by
  have h := c.valid
  rcases h with h | h
  · left; exact h
  · right; exact h

theorem hexVal_hexDigitChar (d : Nat) (h : d < 16) : hexVal (hexDigitChar d) = some d := by
  interval_cases d <;> decide

theorem escList_length (cs : List Char) : cs.length + 1 ≤ (escList cs).length := by
  induction cs with
  | nil => simp [escList]
  | cons c cs ih =>
    have h1 : 1 ≤ (escChar c).length := by
      unfold escChar
      repeat' split
      all_goals simp
    rw [escList, List.length_append]
    simp only [List.length_cons]
    omega

theorem parseStrBody_short (f : Nat) (e d : Char) (l : List Char)
    (he : e ≠ 'u') (hd : escDecode e = some d) :
    parseStrBody (f + 1) ('\\' :: e :: l) = strCons d (parseStrBody f l) := by
  rw [parseStrBody.eq_def]
  simp only []
  rw [if_neg (by decide : ¬('\\' : Char) = '"')]
  simp only [if_true]
  rw [if_neg he, hd]

theorem parseStrBody_plain (f : Nat) (c : Char) (l : List Char)
    (h1 : c ≠ '"') (h2 : c ≠ '\\') (h3 : ¬ c.toNat < 32) :
    parseStrBody (f + 1) (c :: l) = strCons c (parseStrBody f l) := by
  rw [parseStrBody.eq_def]
  simp only []
  rw [if_neg h1, if_neg h2, if_neg h3]

theorem parseStrBody_hexu (f : Nat) (n : Nat) (l : List Char)
    (hn : n < 65536) (hs : n < 55296 ∨ 57343 < n) :
    parseStrBody (f + 1) ('\\' :: 'u' :: (hex4 n ++ l)) =
      strCons (Char.ofNat n) (parseStrBody f l) := by
  rw [hex4]
  simp only [List.cons_append, List.nil_append]
  rw [parseStrBody.eq_def]
  simp only []
  rw [if_neg (by decide : ¬('\\' : Char) = '"')]
  simp only [if_true]
  rw [hexVal_hexDigitChar _ (by omega), hexVal_hexDigitChar _ (by omega),
    hexVal_hexDigitChar _ (by omega), hexVal_hexDigitChar _ (by omega)]
  dsimp only
  have he : ((n / 4096 % 16 * 16 + n / 256 % 16) * 16 + n / 16 % 16) * 16 + n % 16 = n := by
    omega
  simp only [he]
  rw [if_neg (by omega), if_neg (by omega)]

theorem parseStrBody_pair (f : Nat) (x : Nat) (l : List Char) (hx : x < 1048576) :
    parseStrBody (f + 1)
      ('\\' :: 'u' :: (hex4 (55296 + x / 1024) ++ ('\\' :: 'u' :: (hex4 (56320 + x % 1024) ++ l)))) =
      strCons (Char.ofNat (65536 + x)) (parseStrBody f l) := by
  rw [hex4, hex4]
  simp only [List.cons_append, List.nil_append]
  rw [parseStrBody.eq_def]
  simp only []
  rw [if_neg (by decide : ¬('\\' : Char) = '"')]
  simp only [if_true]
  rw [hexVal_hexDigitChar _ (by omega), hexVal_hexDigitChar _ (by omega),
    hexVal_hexDigitChar _ (by omega), hexVal_hexDigitChar _ (by omega)]
  dsimp only
  have hn : (((55296 + x / 1024) / 4096 % 16 * 16 + (55296 + x / 1024) / 256 % 16) * 16 +
      (55296 + x / 1024) / 16 % 16) * 16 + (55296 + x / 1024) % 16 =
      55296 + x / 1024 := by omega
  simp only [hn]
  rw [if_pos (by omega)]
  rw [hexVal_hexDigitChar _ (by omega), hexVal_hexDigitChar _ (by omega),
    hexVal_hexDigitChar _ (by omega), hexVal_hexDigitChar _ (by omega)]
  dsimp only
  have hm : (((56320 + x % 1024) / 4096 % 16 * 16 + (56320 + x % 1024) / 256 % 16) * 16 +
      (56320 + x % 1024) / 16 % 16) * 16 + (56320 + x % 1024) % 16 =
      56320 + x % 1024 := by omega
  simp only [hm]
  rw [if_pos (by omega)]
  have hcomb : 65536 + (55296 + x / 1024 - 55296) * 1024 + (56320 + x % 1024 - 56320) =
      65536 + x := by omega
  rw [hcomb]

theorem parseStrBody_escChar (f : Nat) (c : Char) (l : List Char) :
    parseStrBody (f + 1) (escChar c ++ l) = strCons c (parseStrBody f l) := by
  by_cases h1 : c = '"'
  · subst h1
    rw [(by decide : escChar '"' = ['\\', '"'])]
    exact parseStrBody_short f '"' '"' l (by decide) (by decide)
  by_cases h2 : c = '\\'
  · subst h2
    rw [(by decide : escChar '\\' = ['\\', '\\'])]
    exact parseStrBody_short f '\\' '\\' l (by decide) (by decide)
  by_cases h3 : c = '\x08'
  · subst h3
    rw [(by decide : escChar '\x08' = ['\\', 'b'])]
    exact parseStrBody_short f 'b' '\x08' l (by decide) (by decide)
  by_cases h4 : c = '\x0c'
  · subst h4
    rw [(by decide : escChar '\x0c' = ['\\', 'f'])]
    exact parseStrBody_short f 'f' '\x0c' l (by decide) (by decide)
  by_cases h5 : c = '\n'
  · subst h5
    rw [(by decide : escChar '\n' = ['\\', 'n'])]
    exact parseStrBody_short f 'n' '\n' l (by decide) (by decide)
  by_cases h6 : c = '\r'
  · subst h6
    rw [(by decide : escChar '\r' = ['\\', 'r'])]
    exact parseStrBody_short f 'r' '\r' l (by decide) (by decide)
  by_cases h7 : c = '\t'
  · subst h7
    rw [(by decide : escChar '\t' = ['\\', 't'])]
    exact parseStrBody_short f 't' '\t' l (by decide) (by decide)
  by_cases h8 : 32 ≤ c.toNat ∧ c.toNat < 127
  · have he : escChar c = [c] := by
      unfold escChar
      rw [if_neg h1, if_neg h2, if_neg h3, if_neg h4, if_neg h5, if_neg h6, if_neg h7,
        if_pos (by simp only [Bool.and_eq_true, decide_eq_true_eq]; omega)]
    rw [he]
    exact parseStrBody_plain f c l h1 h2 (by omega)
  have hs : c.toNat < 55296 ∨ 57343 < c.toNat := (char_valid_cases c).imp id And.left
  have hvlt : c.toNat < 1114112 := by
    rcases char_valid_cases c with hv | hv
    · omega
    · omega
  by_cases h9 : c.toNat < 65536
  · have he : escChar c = '\\' :: 'u' :: hex4 c.toNat := by
      unfold escChar
      rw [if_neg h1, if_neg h2, if_neg h3, if_neg h4, if_neg h5, if_neg h6, if_neg h7,
        if_neg (by simp only [Bool.and_eq_true, decide_eq_true_eq]; omega), if_pos h9]
    rw [he]
    simp only [List.cons_append]
    rw [parseStrBody_hexu f c.toNat l h9 hs, Char.ofNat_toNat]
  · have he : escChar c =
        ('\\' :: 'u' :: hex4 (55296 + (c.toNat - 65536) / 1024)) ++
        ('\\' :: 'u' :: hex4 (56320 + (c.toNat - 65536) % 1024)) := by
      unfold escChar
      rw [if_neg h1, if_neg h2, if_neg h3, if_neg h4, if_neg h5, if_neg h6, if_neg h7,
        if_neg (by simp only [Bool.and_eq_true, decide_eq_true_eq]; omega), if_neg h9]
    rw [he]
    simp only [List.cons_append, List.append_assoc]
    rw [parseStrBody_pair f (c.toNat - 65536) l (by omega)]
    have hback : 65536 + (c.toNat - 65536) = c.toNat := by omega
    rw [hback, Char.ofNat_toNat]

theorem parseStrBody_escList (cs : List Char) :
    ∀ (fuel : Nat) (rest : List Char), cs.length < fuel →
      parseStrBody fuel (escList cs ++ rest) = some (cs, rest) := by
  induction cs with
  | nil =>
    intro fuel rest h
    cases fuel with
    | zero => omega
    | succ f => simp [escList, parseStrBody]
  | cons c cs ih =>
    intro fuel rest h
    cases fuel with
    | zero => simp at h
    | succ f =>
      have hf : cs.length < f := by simp only [List.length_cons] at h; omega
      rw [escList, List.append_assoc, parseStrBody_escChar f c _, ih f rest hf]
      rfl

/-! ## Round-trip lemmas: whitespace and heads -/

theorem skipWs_cons_not (c : Char) (l : List Char) (h : isWsChar c = false) :
    skipWs (c :: l) = c :: l := by
  rw [skipWs]
  simp [h]

theorem skipWs_replicate_space (n : Nat) (l : List Char) :
    skipWs (List.replicate n ' ' ++ l) = skipWs l := by
  induction n with
  | zero => simp
  | succ n ih =>
    rw [List.replicate_succ, List.cons_append, skipWs]
    simp only [(by decide : isWsChar ' ' = true), if_true]
    exact ih

theorem skipWs_nlInd (lvl : Nat) (l : List Char) :
    skipWs (nlInd lvl ++ l) = skipWs l := by
  rw [nlInd, List.cons_append, skipWs]
  simp only [(by decide : isWsChar '\n' = true), if_true]
  exact skipWs_replicate_space _ l

theorem digitChar_props (d : Nat) (h : d < 10) :
    isWsChar (digitChar d) = false ∧ digitChar d ≠ ']' ∧ digitChar d ≠ '}' ∧
    digitChar d ≠ 'n' ∧ digitChar d ≠ 't' ∧ digitChar d ≠ 'f' ∧
    digitChar d ≠ '"' ∧ digitChar d ≠ '-' := by
  interval_cases d <;> decide

theorem printVal_head (v : JsonVal) (lvl : Nat) :
    ∃ c t, printVal v lvl = c :: t ∧ isWsChar c = false ∧ c ≠ ']' ∧ c ≠ '}' := by
  cases v with
  | null =>
    exact ⟨'n', ['u', 'l', 'l'], by simp [printVal], by decide, by decide, by decide⟩
  | bool b =>
    cases b with
    | true =>
      exact ⟨'t', ['r', 'u', 'e'], by simp [printVal], by decide, by decide, by decide⟩
    | false =>
      exact ⟨'f', ['a', 'l', 's', 'e'], by simp [printVal], by decide, by decide, by decide⟩
  | num n =>
    have hp : printVal (.num n) lvl = intDigits n := by simp [printVal]
    rw [hp, intDigits]
    by_cases hn : n < 0
    · exact ⟨'-', natDigits n.natAbs, by simp [hn], by decide, by decide, by decide⟩
    · obtain ⟨d, t, hd, ht⟩ := natDigits_head n.toNat
      obtain ⟨p1, p2, p3, _⟩ := digitChar_props d hd
      exact ⟨digitChar d, t, by simp [hn, ht], p1, p2, p3⟩
  | str s =>
    exact ⟨'"', escList s.data, by simp [printVal, escString], by decide, by decide, by decide⟩
  | arr items =>
    cases items with
    | nil => exact ⟨'[', [']'], by simp [printVal], by decide, by decide, by decide⟩
    | cons v vs =>
      exact ⟨'[', printArrItems (v :: vs) (lvl + 1) ++ (nlInd lvl ++ [']']),
        by simp [printVal], by decide, by decide, by decide⟩
  | obj fields =>
    cases fields with
    | nil => exact ⟨'{', ['}'], by simp [printVal], by decide, by decide, by decide⟩
    | cons kv kvs =>
      exact ⟨'{', printObjItems (kv :: kvs) (lvl + 1) ++ (nlInd lvl ++ ['}']),
        by simp [printVal], by decide, by decide, by decide⟩

/-! ## Round-trip lemmas: scalar values -/

theorem safeRest_nlInd (lvl : Nat) (l : List Char) : safeRest (nlInd lvl ++ l) = true := rfl

theorem safeRest_comma (l : List Char) : safeRest (',' :: l) = true := rfl

theorem parseVal_null (f : Nat) (rest : List Char) :
    parseVal (f + 1) ('n' :: 'u' :: 'l' :: 'l' :: rest) = some (.null, rest) := by
  simp [parseVal]

theorem parseVal_true (f : Nat) (rest : List Char) :
    parseVal (f + 1) ('t' :: 'r' :: 'u' :: 'e' :: rest) = some (.bool true, rest) := by
  simp [parseVal]

theorem parseVal_false (f : Nat) (rest : List Char) :
    parseVal (f + 1) ('f' :: 'a' :: 'l' :: 's' :: 'e' :: rest) = some (.bool false, rest) := by
  simp [parseVal]

theorem parseVal_str (f : Nat) (s : String) (rest : List Char) :
    parseVal (f + 1) (escString s ++ rest) = some (.str s, rest) := by
  rw [escString, List.cons_append]
  have hlen : s.data.length < (escList s.data ++ rest).length + 1 := by
    have := escList_length s.data
    rw [List.length_append]
    omega
  simp only [parseVal]
  rw [parseStrBody_escList s.data _ rest hlen]
  have hmk : String.mk s.data = s := by cases s; rfl
  simp [hmk]

theorem parseVal_num (f : Nat) (n : Int) (rest : List Char) (h : safeRest rest = true) :
    parseVal (f + 1) (intDigits n ++ rest) = some (.num n, rest) := by
  rw [intDigits]
  by_cases hn : n < 0
  · simp only [hn, if_true, List.cons_append]
    simp only [parseVal]
    rw [parseNat_natDigits _ _ h]
    dsimp only
    have hv : -((n.natAbs : Int)) = n := by omega
    rw [hv]
    simp
  · simp only [hn, if_false]
    obtain ⟨d, t, hd, ht⟩ := natDigits_head n.toNat
    obtain ⟨p1, p2, p3, p4, p5, p6, p7, p8⟩ := digitChar_props d hd
    rw [ht, List.cons_append]
    simp only [parseVal]
    rw [if_neg p4, if_neg p5, if_neg p6, if_neg p7, if_neg p8,
      if_pos (isDigitC_digitChar d hd)]
    rw [← List.cons_append, ← ht, parseNat_natDigits _ _ h]
    dsimp only
    have hv : ((n.toNat : Int)) = n := by omega
    rw [hv]

/-! ## Sizes: parser fuel bound and induction measure -/

mutual

def sizeV : JsonVal → Nat
  | .null => 1
  | .bool _ => 1
  | .num _ => 1
  | .str _ => 1
  | .arr items => 1 + sizeA items
  | .obj fields => 1 + sizeO fields

def sizeA : List JsonVal → Nat
  | [] => 1
  | v :: vs => 1 + sizeV v + sizeA vs

def sizeO : List (String × JsonVal) → Nat
  | [] => 1
  | (_, v) :: kvs => 1 + sizeV v + sizeO kvs

end

theorem sizeV_pos (v : JsonVal) : 1 ≤ sizeV v := by
  cases v <;> simp [sizeV]

theorem sizeA_pos (items : List JsonVal) : 1 ≤ sizeA items := by
  cases items with
  | nil => simp [sizeA]
  | cons v vs => simp only [sizeA]; omega

theorem sizeO_pos (fields : List (String × JsonVal)) : 1 ≤ sizeO fields := by
  cases fields with
  | nil => simp [sizeO]
  | cons kv kvs => obtain ⟨k, v⟩ := kv; simp only [sizeO]; omega

theorem print_size_le (N : Nat) :
    (∀ v, sizeV v < N → ∀ lvl, sizeV v ≤ (printVal v lvl).length + 1) ∧
    (∀ items, sizeA items < N → ∀ lvl, 1 ≤ lvl →
      sizeA items ≤ (printArrItems items lvl).length + 1) ∧
    (∀ fields, sizeO fields < N → ∀ lvl, 1 ≤ lvl →
      sizeO fields ≤ (printObjItems fields lvl).length + 1) := by
  induction N using Nat.strong_induction_on with
  | _ N ih =>
    refine ⟨?_, ?_, ?_⟩
    · intro v hv lvl
      cases v with
      | null => simp [sizeV, printVal]
      | bool b => cases b <;> simp [sizeV, printVal]
      | num n => simp only [sizeV]; omega
      | str s => simp only [sizeV]; omega
      | arr items =>
        cases items with
        | nil => simp [sizeV, sizeA, printVal]
        | cons v vs =>
          have hN : 1 ≤ N := by have := sizeV_pos (JsonVal.arr (v :: vs)); omega
          obtain ⟨_, ihA, _⟩ := ih (N - 1) (by omega)
          simp only [sizeV] at hv ⊢
          have hle := ihA (v :: vs) (by omega) (lvl + 1) (by omega)
          have hp : (printVal (.arr (v :: vs)) lvl).length =
              1 + ((printArrItems (v :: vs) (lvl + 1)).length + (2 * lvl + 1) + 1) := by
            simp [printVal, nlInd]
            omega
          omega
      | obj fields =>
        cases fields with
        | nil => simp [sizeV, sizeO, printVal]
        | cons kv kvs =>
          have hN : 1 ≤ N := by have := sizeV_pos (JsonVal.obj (kv :: kvs)); omega
          obtain ⟨_, _, ihO⟩ := ih (N - 1) (by omega)
          simp only [sizeV] at hv ⊢
          have hle := ihO (kv :: kvs) (by omega) (lvl + 1) (by omega)
          have hp : (printVal (.obj (kv :: kvs)) lvl).length =
              1 + ((printObjItems (kv :: kvs) (lvl + 1)).length + (2 * lvl + 1) + 1) := by
            simp [printVal, nlInd]
            omega
          omega
    · intro items hA lvl hlvl
      cases items with
      | nil => simp [sizeA, printArrItems]
      | cons v vs =>
        have hN : 1 ≤ N := by have := sizeA_pos (v :: vs); omega
        obtain ⟨ihV, ihA, _⟩ := ih (N - 1) (by omega)
        cases vs with
        | nil =>
          simp only [sizeA] at hA ⊢
          have hvpos := sizeV_pos v
          have hle := ihV v (by omega) lvl
          have hp : (printArrItems [v] lvl).length =
              (2 * lvl + 1) + (printVal v lvl).length := by
            simp [printArrItems, nlInd]
            omega
          omega
        | cons v' vs' =>
          simp only [sizeA] at hA ⊢
          have hvpos := sizeV_pos v
          have hapos := sizeA_pos (v' :: vs')
          have hexp : sizeA (v' :: vs') = 1 + sizeV v' + sizeA vs' := by
            simp only [sizeA]
          have hle := ihV v (by omega) lvl
          have hle2 := ihA (v' :: vs') (by omega) lvl hlvl
          have hp : (printArrItems (v :: v' :: vs') lvl).length =
              (2 * lvl + 1) + (printVal v lvl).length + 1 +
                (printArrItems (v' :: vs') lvl).length := by
            simp [printArrItems, nlInd]
            omega
          omega
    · intro fields hO lvl hlvl
      cases fields with
      | nil => simp [sizeO, printObjItems]
      | cons kv kvs =>
        obtain ⟨k, v⟩ := kv
        have hN : 1 ≤ N := by have := sizeO_pos ((k, v) :: kvs); omega
        obtain ⟨ihV, _, ihO⟩ := ih (N - 1) (by omega)
        cases kvs with
        | nil =>
          simp only [sizeO] at hO ⊢
          have hvpos := sizeV_pos v
          have hle := ihV v (by omega) lvl
          have hp : (printObjItems [(k, v)] lvl).length =
              (2 * lvl + 1) + ((escList k.data).length + 1) + 2 +
                (printVal v lvl).length := by
            simp [printObjItems, nlInd, escString]
            omega
          omega
        | cons kv' kvs' =>
          simp only [sizeO] at hO ⊢
          have hvpos := sizeV_pos v
          have hopos := sizeO_pos (kv' :: kvs')
          have hexp : sizeO (kv' :: kvs') = 1 + sizeV kv'.2 + sizeO kvs' := by
            simp only [sizeO]
          have hle := ihV v (by omega) lvl
          have hle2 := ihO (kv' :: kvs') (by omega) lvl hlvl
          have hp : (printObjItems ((k, v) :: kv' :: kvs') lvl).length =
              (2 * lvl + 1) + ((escList k.data).length + 1) + 2 +
                (printVal v lvl).length + 1 + (printObjItems (kv' :: kvs') lvl).length := by
            simp [printObjItems, nlInd, escString]
            omega
          omega

theorem printVal_nullEq (lvl : Nat) : printVal .null lvl = ['n', 'u', 'l', 'l'] := by
  simp [printVal]

theorem printVal_trueEq (lvl : Nat) : printVal (.bool true) lvl = ['t', 'r', 'u', 'e'] := by
  simp [printVal]

theorem printVal_falseEq (lvl : Nat) :
    printVal (.bool false) lvl = ['f', 'a', 'l', 's', 'e'] := by
  simp [printVal]

theorem printVal_numEq (n : Int) (lvl : Nat) : printVal (.num n) lvl = intDigits n := by
  simp [printVal]

theorem printVal_strEq (s : String) (lvl : Nat) : printVal (.str s) lvl = escString s := by
  simp [printVal]

theorem printVal_arrNil (lvl : Nat) : printVal (.arr []) lvl = ['[', ']'] := by
  simp [printVal]

theorem printVal_arrCons (v : JsonVal) (vs : List JsonVal) (lvl : Nat) :
    printVal (.arr (v :: vs)) lvl =
      '[' :: (printArrItems (v :: vs) (lvl + 1) ++ nlInd lvl ++ [']']) := by
  simp [printVal]

theorem printVal_objNil (lvl : Nat) : printVal (.obj []) lvl = ['{', '}'] := by
  simp [printVal]

theorem printVal_objCons (kv : String × JsonVal) (kvs : List (String × JsonVal)) (lvl : Nat) :
    printVal (.obj (kv :: kvs)) lvl =
      '{' :: (printObjItems (kv :: kvs) (lvl + 1) ++ nlInd lvl ++ ['}']) := by
  simp [printVal]

theorem printArrItems_one (v : JsonVal) (lvl : Nat) :
    printArrItems [v] lvl = nlInd lvl ++ printVal v lvl := by
  simp [printArrItems]

theorem printArrItems_cons (v v' : JsonVal) (vs : List JsonVal) (lvl : Nat) :
    printArrItems (v :: v' :: vs) lvl =
      nlInd lvl ++ printVal v lvl ++ ',' :: printArrItems (v' :: vs) lvl := by
  simp [printArrItems]

theorem printObjItems_one (k : String) (v : JsonVal) (lvl : Nat) :
    printObjItems [(k, v)] lvl = nlInd lvl ++ escString k ++ ':' :: ' ' :: printVal v lvl := by
  simp [printObjItems]

theorem printObjItems_cons (k : String) (v : JsonVal) (kv' : String × JsonVal)
    (kvs : List (String × JsonVal)) (lvl : Nat) :
    printObjItems ((k, v) :: kv' :: kvs) lvl =
      nlInd lvl ++ escString k ++ ':' :: ' ' :: printVal v lvl ++
        ',' :: printObjItems (kv' :: kvs) lvl := by
  simp [printObjItems]

theorem parse_print (N : Nat) :
    (∀ v, sizeV v < N → ∀ lvl fuel rest, sizeV v ≤ fuel → safeRest rest = true →
      parseVal fuel (printVal v lvl ++ rest) = some (v, rest)) ∧
    (∀ items, sizeA items < N → ∀ lvl2 lvl fuel rest, sizeA items ≤ fuel → items ≠ [] →
      parseArrItems fuel (skipWs (printArrItems items lvl2 ++ (nlInd lvl ++ ']' :: rest))) =
        some (items, rest)) ∧
    (∀ fields, sizeO fields < N → ∀ lvl2 lvl fuel rest, sizeO fields ≤ fuel → fields ≠ [] →
      parseObjItems fuel (skipWs (printObjItems fields lvl2 ++ (nlInd lvl ++ '}' :: rest))) =
        some (fields, rest)) := by
  induction N using Nat.strong_induction_on with
  | _ N ih =>
    refine ⟨?_, ?_, ?_⟩
    · intro v hv lvl fuel rest hfuel hsafe
      have hN : 1 ≤ N := by have := sizeV_pos v; omega
      obtain ⟨ihV, ihA, ihO⟩ := ih (N - 1) (by omega)
      cases fuel with
      | zero => have := sizeV_pos v; omega
      | succ f =>
        cases v with
        | null =>
          rw [printVal_nullEq]
          simp only [List.cons_append, List.nil_append]
          exact parseVal_null f rest
        | bool b =>
          cases b with
          | true =>
            rw [printVal_trueEq]
            simp only [List.cons_append, List.nil_append]
            exact parseVal_true f rest
          | false =>
            rw [printVal_falseEq]
            simp only [List.cons_append, List.nil_append]
            exact parseVal_false f rest
        | num n =>
          rw [printVal_numEq]
          exact parseVal_num f n rest hsafe
        | str s =>
          rw [printVal_strEq]
          exact parseVal_str f s rest
        | arr items =>
          cases items with
          | nil =>
            rw [printVal_arrNil]
            simp only [List.cons_append, List.nil_append]
            simp [parseVal, skipWs, isWsChar, (by decide : isDigitC '[' = false)]
          | cons v vs =>
            rw [printVal_arrCons]
            simp only [List.cons_append, List.nil_append, List.append_assoc]
            simp only [parseVal]
            rw [if_neg (by decide : ¬('[' : Char) = 'n'), if_neg (by decide : ¬('[' : Char) = 't'),
              if_neg (by decide : ¬('[' : Char) = 'f'), if_neg (by decide : ¬('[' : Char) = '"'),
              if_neg (by decide : ¬('[' : Char) = '-'),
              if_neg (by decide : ¬ isDigitC '[' = true), if_pos trivial]
            have hexp : sizeV (.arr (v :: vs)) = 1 + sizeA (v :: vs) := by rw [sizeV]
            obtain ⟨c0, t0, hpv, hws, hne1, hne2⟩ := printVal_head v (lvl + 1)
            have hsk : ∃ t1,
                skipWs (printArrItems (v :: vs) (lvl + 1) ++ (nlInd lvl ++ (']' :: rest))) =
                  c0 :: t1 := by
              cases vs with
              | nil =>
                rw [printArrItems_one, List.append_assoc, skipWs_nlInd, hpv, List.cons_append,
                  skipWs_cons_not _ _ hws]
                exact ⟨_, rfl⟩
              | cons v' vs' =>
                rw [printArrItems_cons]
                simp only [List.append_assoc, List.cons_append]
                rw [skipWs_nlInd, hpv, List.cons_append, skipWs_cons_not _ _ hws]
                exact ⟨_, rfl⟩
            obtain ⟨t1, hsk⟩ := hsk
            rw [hsk]
            split
            · next r heq =>
                simp only [List.cons.injEq] at heq
                exact absurd heq.1 hne1
            · rw [← hsk]
              have hA := ihA (v :: vs) (by omega) (lvl + 1) lvl f rest (by omega) (by simp)
              rw [hA]
        | obj fields =>
          cases fields with
          | nil =>
            rw [printVal_objNil]
            simp only [List.cons_append, List.nil_append]
            simp [parseVal, skipWs, isWsChar, (by decide : isDigitC '{' = false)]
          | cons kv kvs =>
            rw [printVal_objCons]
            simp only [List.cons_append, List.nil_append, List.append_assoc]
            simp only [parseVal]
            rw [if_neg (by decide : ¬('{' : Char) = 'n'), if_neg (by decide : ¬('{' : Char) = 't'),
              if_neg (by decide : ¬('{' : Char) = 'f'), if_neg (by decide : ¬('{' : Char) = '"'),
              if_neg (by decide : ¬('{' : Char) = '-'),
              if_neg (by decide : ¬ isDigitC '{' = true),
              if_neg (by decide : ¬('{' : Char) = '['), if_pos trivial]
            have hexp : sizeV (.obj (kv :: kvs)) = 1 + sizeO (kv :: kvs) := by rw [sizeV]
            have hhd : ∃ t1,
                skipWs (printObjItems (kv :: kvs) (lvl + 1) ++ (nlInd lvl ++ ('}' :: rest))) =
                  '"' :: t1 := by
              obtain ⟨k, v⟩ := kv
              cases kvs with
              | nil =>
                rw [printObjItems_one, escString]
                simp only [List.append_assoc, List.cons_append]
                rw [skipWs_nlInd, skipWs_cons_not _ _ (by decide)]
                exact ⟨_, rfl⟩
              | cons kv' kvs' =>
                rw [printObjItems_cons, escString]
                simp only [List.append_assoc, List.cons_append]
                rw [skipWs_nlInd, skipWs_cons_not _ _ (by decide)]
                exact ⟨_, rfl⟩
            obtain ⟨t1, hhd⟩ := hhd
            rw [hhd]
            split
            · next r heq =>
                simp only [List.cons.injEq] at heq
                exact absurd heq.1 (by decide)
            · rw [← hhd]
              have hO := ihO (kv :: kvs) (by omega) (lvl + 1) lvl f rest (by omega) (by simp)
              rw [hO]
    · intro items hA lvl2 lvl fuel rest hfuel hne
      have hN : 1 ≤ N := by have := sizeA_pos items; omega
      obtain ⟨ihV, ihA, ihO⟩ := ih (N - 1) (by omega)
      cases fuel with
      | zero => have := sizeA_pos items; omega
      | succ f =>
        cases items with
        | nil => exact absurd rfl hne
        | cons v vs =>
          obtain ⟨c0, t0, hpv, hws, hne1, hne2⟩ := printVal_head v lvl2
          have hvp := sizeV_pos v
          cases vs with
          | nil =>
            have hexp : sizeA [v] = 1 + sizeV v + 1 := by simp [sizeA]
            rw [printArrItems_one, List.append_assoc, skipWs_nlInd, hpv, List.cons_append,
              skipWs_cons_not _ _ hws, ← List.cons_append, ← hpv]
            simp only [parseArrItems]
            have hV := ihV v (by omega) lvl2 f (nlInd lvl ++ ']' :: rest) (by omega)
              (safeRest_nlInd lvl _)
            rw [hV]
            dsimp only
            rw [skipWs_nlInd, skipWs_cons_not _ _ (by decide : isWsChar ']' = false)]
            rfl
          | cons v' vs' =>
            have hexp : sizeA (v :: v' :: vs') = 1 + sizeV v + sizeA (v' :: vs') := by
              rw [sizeA]
            have hap := sizeA_pos (v' :: vs')
            rw [printArrItems_cons]
            simp only [List.append_assoc, List.cons_append]
            rw [skipWs_nlInd, hpv, List.cons_append, skipWs_cons_not _ _ hws,
              ← List.cons_append, ← hpv]
            simp only [parseArrItems]
            have hV := ihV v (by omega) lvl2 f
              (',' :: (printArrItems (v' :: vs') lvl2 ++ (nlInd lvl ++ ']' :: rest)))
              (by omega) (safeRest_comma _)
            rw [hV]
            dsimp only
            rw [skipWs_cons_not _ _ (by decide : isWsChar ',' = false)]
            split
            · next r2 heq =>
                simp only [List.cons.injEq, true_and] at heq
                subst heq
                have hA2 := ihA (v' :: vs') (by omega) lvl2 lvl f rest (by omega) (by simp)
                rw [hA2]
            · next r2 heq =>
                simp only [List.cons.injEq] at heq
                exact absurd heq.1 (by decide)
            · next x h1 h2 => exact ((h1 _ rfl).elim : _)
    · intro fields hO lvl2 lvl fuel rest hfuel hne
      have hN : 1 ≤ N := by have := sizeO_pos fields; omega
      obtain ⟨ihV, ihA, ihO⟩ := ih (N - 1) (by omega)
      cases fuel with
      | zero => have := sizeO_pos fields; omega
      | succ f =>
        cases fields with
        | nil => exact absurd rfl hne
        | cons kv kvs =>
          obtain ⟨k, v⟩ := kv
          obtain ⟨c0, t0, hpv, hws, hne1, hne2⟩ := printVal_head v lvl2
          have hvp := sizeV_pos v
          have hmk : String.mk k.data = k := by cases k; rfl
          cases kvs with
          | nil =>
            have hexp : sizeO [(k, v)] = 1 + sizeV v + 1 := by simp [sizeO]
            rw [printObjItems_one, escString]
            simp only [List.append_assoc, List.cons_append]
            rw [skipWs_nlInd, skipWs_cons_not _ _ (by decide : isWsChar '"' = false)]
            simp only [parseObjItems]
            have hkey : k.data.length <
                (escList k.data ++
                  (':' :: ' ' :: (printVal v lvl2 ++ (nlInd lvl ++ '}' :: rest)))).length + 1 := by
              have := escList_length k.data
              rw [List.length_append]
              omega
            rw [parseStrBody_escList k.data _ _ hkey]
            dsimp only
            rw [skipWs_cons_not _ _ (by decide : isWsChar ':' = false)]
            split
            · next r2 heq =>
                simp only [List.cons.injEq, true_and] at heq
                subst heq
                have hsp : skipWs (' ' :: (printVal v lvl2 ++ (nlInd lvl ++ '}' :: rest))) =
                    printVal v lvl2 ++ (nlInd lvl ++ '}' :: rest) := by
                  rw [skipWs]
                  simp only [(by decide : isWsChar ' ' = true), if_true]
                  rw [hpv, List.cons_append, skipWs_cons_not _ _ hws, ← List.cons_append, ← hpv]
                rw [hsp]
                have hV := ihV v (by omega) lvl2 f (nlInd lvl ++ '}' :: rest) (by omega)
                  (safeRest_nlInd lvl _)
                rw [hV]
                dsimp only
                rw [skipWs_nlInd, skipWs_cons_not _ _ (by decide : isWsChar '}' = false), hmk]
                rfl
            · next heq => exact absurd rfl (fun hh => heq _ hh)
          | cons kv' kvs' =>
            have hexp : sizeO ((k, v) :: kv' :: kvs') = 1 + sizeV v + sizeO (kv' :: kvs') := by
              rw [sizeO]
            have hop := sizeO_pos (kv' :: kvs')
            rw [printObjItems_cons, escString]
            simp only [List.append_assoc, List.cons_append]
            rw [skipWs_nlInd, skipWs_cons_not _ _ (by decide : isWsChar '"' = false)]
            simp only [parseObjItems]
            have hkey : k.data.length <
                (escList k.data ++
                  (':' :: ' ' :: (printVal v lvl2 ++
                    (',' :: (printObjItems (kv' :: kvs') lvl2 ++
                      (nlInd lvl ++ '}' :: rest)))))).length + 1 := by
              have := escList_length k.data
              rw [List.length_append]
              omega
            rw [parseStrBody_escList k.data _ _ hkey]
            dsimp only
            rw [skipWs_cons_not _ _ (by decide : isWsChar ':' = false)]
            split
            · next r2 heq =>
                simp only [List.cons.injEq, true_and] at heq
                subst heq
                have hsp : skipWs (' ' :: (printVal v lvl2 ++
                    (',' :: (printObjItems (kv' :: kvs') lvl2 ++ (nlInd lvl ++ '}' :: rest))))) =
                    printVal v lvl2 ++
                      (',' :: (printObjItems (kv' :: kvs') lvl2 ++ (nlInd lvl ++ '}' :: rest))) := by
                  rw [skipWs]
                  simp only [(by decide : isWsChar ' ' = true), if_true]
                  rw [hpv, List.cons_append, skipWs_cons_not _ _ hws, ← List.cons_append, ← hpv]
                rw [hsp]
                have hV := ihV v (by omega) lvl2 f
                  (',' :: (printObjItems (kv' :: kvs') lvl2 ++ (nlInd lvl ++ '}' :: rest)))
                  (by omega) (safeRest_comma _)
                rw [hV]
                dsimp only
                rw [skipWs_cons_not _ _ (by decide : isWsChar ',' = false)]
                split
                · next r4 heq2 =>
                    simp only [List.cons.injEq, true_and] at heq2
                    subst heq2
                    have hO2 := ihO (kv' :: kvs') (by omega) lvl2 lvl f rest (by omega) (by simp)
                    rw [hO2, hmk]
                · next r4 heq2 =>
                    simp only [List.cons.injEq] at heq2
                    exact absurd heq2.1 (by decide)
                · next x h1 h2 => exact ((h1 _ rfl).elim : _)
            · next heq => exact absurd rfl (fun hh => heq _ hh)

/-- Reading back what `json.dump` wrote yields the value unchanged. -/
theorem jsonParse_jsonDump (v : JsonVal) : jsonParse (jsonDump v) = some v := by
  rw [jsonDump, jsonParse]
  obtain ⟨c, t, hpv, hws, _, _⟩ := printVal_head v 0
  have hsk : skipWs (printVal v 0) = printVal v 0 := by
    rw [hpv]
    exact skipWs_cons_not _ _ hws
  have hfa := (print_size_le (sizeV v + 1)).1 v (by omega) 0
  have hmain := (parse_print (sizeV v + 1)).1 v (by omega) 0 ((printVal v 0).length + 1) []
    (by omega) rfl
  rw [List.append_nil] at hmain
  have hdata : (String.mk (printVal v 0)).data = printVal v 0 := rfl
  have hlen : (String.mk (printVal v 0)).length = (printVal v 0).length := rfl
  rw [hdata, hlen, hsk, hmain]
  simp [skipWs]

/-! ## `src/utils.py`: slugify

Python character predicates, exact on ASCII (the repository feeds dataset
directory names and CLI template strings through these). -/

/-- Python `str.strip()` whitespace (`\s`), ASCII range. -/
def pyIsSpace (c : Char) : Bool :=
  c = ' ' || c = '\t' || c = '\n' || c = '\r' || c = '\x0b' || c = '\x0c'

/-- Python regex `\w`: alphanumeric or underscore (ASCII range). -/
def pyIsWordChar (c : Char) : Bool := c.isAlphanum || c = '_'

/-- A character the kebab-case class `[a-z0-9]` accepts. -/
def isLowerDigit (c : Char) : Bool :=
  ('a' ≤ c && c ≤ 'z') || ('0' ≤ c && c ≤ '9')

mutual

/-- Inside a `[a-z0-9]+` segment: more segment characters, or a hyphen
starting a fresh segment, or the end. -/
def kebabSeg : List Char → Bool
  | [] => true
  | '-' :: r => kebabNew r
  | c :: r => isLowerDigit c && kebabSeg r

/-- At the start of a segment: at least one `[a-z0-9]` is required. -/
def kebabNew : List Char → Bool
  | [] => false
  | c :: r => isLowerDigit c && kebabSeg r

end

/-- Full match of `[a-z0-9]+(-[a-z0-9]+)*`. -/
def isKebab (s : List Char) : Bool := kebabNew s

/-- Python `re.match(r"^[a-z0-9]+(-[a-z0-9]+)*$", text)`: `$` (without
`re.MULTILINE`) also matches just before one trailing newline. -/
def pyMatchKebab (s : List Char) : Bool :=
  isKebab s ||
    (match s.getLast? with
     | some c => c = '\n' && isKebab s.dropLast
     | none => false)

/-- Python `str.lower()` (exact on ASCII). -/
def pyLower (s : List Char) : List Char := s.map Char.toLower

/-- Python `str.strip()` (ASCII whitespace). -/
def pyStripWs (s : List Char) : List Char :=
  ((s.dropWhile pyIsSpace).reverse.dropWhile pyIsSpace).reverse

/-- Python `str.strip("-")`. -/
def pyStripHyphens (s : List Char) : List Char :=
  ((s.dropWhile (fun c => c = '-')).reverse.dropWhile (fun c => c = '-')).reverse

/-- `re.sub(r"[^\w\s-]", "", text)`: drop everything outside `\w`, `\s`, `-`. -/
def keepWordSpaceHyphen (s : List Char) : List Char :=
  s.filter (fun c => pyIsWordChar c || pyIsSpace c || c = '-')

/-- The class `[\s_]` of `re.sub(r"[\s_]+", "-", text)`. -/
def isSpaceUnd (c : Char) : Bool := pyIsSpace c || c = '_'

/-- `re.sub` of a one-character-class `+` pattern by a single character:
every maximal run of `p`-characters becomes one `r`. -/
def collapseRuns (p : Char → Bool) (r : Char) : List Char → List Char
  | [] => []
  | c :: cs =>
    if p c then r :: collapseRuns p r (cs.dropWhile p)
    else c :: collapseRuns p r cs
termination_by l => l.length
decreasing_by
  · have := (List.dropWhile_sublist (l := cs) (p := p)).length_le
    simp only [List.length_cons]
    omega
  · simp only [List.length_cons]
    omega

/-- Python `s.rfind(c)`: index of the last occurrence, `-1` when absent. -/
def pyRfind (c : Char) : List Char → Int
  | [] => -1
  | x :: xs =>
    let r := pyRfind c xs
    if r ≥ 0 then r + 1 else if x = c then 0 else -1

/-- Python `s[:i]`: a negative index counts from the end, clamped at zero. -/
def pySlicePrefix (s : List Char) (i : Int) : List Char :=
  if i ≥ 0 then s.take i.toNat else s.take ((s.length : Int) + i).toNat

/-- Python `s.rsplit("-", 1)[0]`: everything before the last hyphen, or the
whole string when there is none. -/
def pyRsplitHead (s : List Char) : List Char :=
  let r := pyRfind '-' s
  if r ≥ 0 then s.take r.toNat else s

/-- `slugify` from `src/utils.py` lines 10-31.  Already kebab-case input
(per Python `re.match` with its newline-tolerant `$`) passes through; other
input is lowered, stripped, stripped of non-word characters, has
whitespace/underscore runs and hyphen runs collapsed to single hyphens, and
is stripped of hyphens; an over-long slug is cut before its last hyphen so
the trailing suffix survives. -/
def slugify (text : List Char) (maxLength : Nat := 63) : List Char :=
  let slug :=
    if pyMatchKebab text then text
    else
      pyStripHyphens
        (collapseRuns (fun c => c = '-') '-'
          (collapseRuns isSpaceUnd '-'
            (keepWordSpaceHyphen (pyStripWs (pyLower text)))))
  if slug.length > maxLength then
    let lastHyphen := pyRfind '-' slug
    let suffix := if lastHyphen != -1 then slug.drop lastHyphen.toNat else []
    let trimTo : Int := (maxLength : Int) - suffix.length
    pyRsplitHead (pySlicePrefix slug trimTo) ++ suffix
  else slug

/-! ## `src/utils.py`: progress file -/

/-- A filesystem: each path maps to the file contents when the file exists. -/
def FileSys : Type := String → Option String

/-- The dict `load_progress` returns for a missing file (utils.py line 108). -/
def defaultProgress : JsonVal :=
  .obj [("deployed", .arr []), ("updated", .arr []), ("failed", .arr [])]

/-- `load_progress` (utils.py 103-108): parse the JSON file when it exists
(`none` models a raised `JSONDecodeError`), else the default record. -/
def load_progress (fs : FileSys) (path : String) : Option JsonVal :=
  match fs path with
  | some contents => jsonParse contents
  | none => some defaultProgress

/-- `save_progress` (utils.py 111-114): truncate and write
`json.dump(progress, f, indent=2)`. -/
def save_progress (fs : FileSys) (path : String) (progress : JsonVal) : FileSys :=
  fun q => if q = path then some (jsonDump progress) else fs q

/-! ## `src/client.py`: the HTTP client wrapper

A server response is its status code and body text; `r.json()` is modelled
by `jsonParse` of the body, with `none` for a raised decode error. -/

structure HttpResponse where
  status : Nat
  text : String

/-- Python `s[:200]` on the body text of an error message. -/
def pyTake (n : Nat) (s : String) : String := String.mk (s.data.take n)

/-- The `f"\x7bstatus\x7d: \x7btext[:200]\x7d"` error string. -/
def errText (r : HttpResponse) : String := toString r.status ++ ": " ++ pyTake 200 r.text

/-- Python `str.lower()` on a whole string (exact on ASCII). -/
def strLower (s : String) : String := String.mk (s.data.map Char.toLower)

/-- Does the second list start with the first? -/
def listStartsWith : List Char → List Char → Bool
  | [], _ => true
  | _ :: _, [] => false
  | n :: ns, h :: hs => n = h && listStartsWith ns hs

/-- Does the list contain the first list as a contiguous run? -/
def listHasSub (sub : List Char) : List Char → Bool
  | [] => listStartsWith sub []
  | c :: cs => listStartsWith sub (c :: cs) || listHasSub sub cs

/-- Python `sub in s` substring test. -/
def containsSub (hay sub : String) : Bool := listHasSub sub.data hay.data

/-- The message `create_dataset` returns when the dataset exists but the
follow-up fetch produced nothing truthy (client.py line 62). -/
def existsButMsg : String := "Dataset exists but couldn" ++ String.mk ['\''] ++ "t fetch"

/-- A client call result: the parsed JSON body or a message string. -/
inductive ApiResult where
  | json (v : JsonVal)
  | msg (s : String)

/-- `SyftClient.get_dataset` (client.py 41-47): the parsed body on 200, else
`None`; the outer `none` models an exception escaping `r.json()`. -/
def get_dataset (resp : HttpResponse) : Option (Option JsonVal) :=
  if resp.status = 200 then (jsonParse resp.text).map some
  else some none

/-- `SyftClient.create_dataset` (client.py 49-63).  `postResp` is the POST
response; `getResp name` is the response the server would give the GET that
the already-exists branch issues for `payload["name"]`; the outer `none`
models an exception escaping `r.json()`. -/
def create_dataset (postResp : HttpResponse) (getResp : String → HttpResponse)
    (payloadName : String) : Option (Bool × ApiResult) :=
  if postResp.status = 201 then
    (jsonParse postResp.text).map (fun v => (true, .json v))
  else if postResp.status = 409 || containsSub (strLower postResp.text) "already exists" then
    match get_dataset (getResp payloadName) with
    | none => none
    | some existing =>
      match existing with
      | some v =>
        if pyTruthy v then some (true, .json v)
        else some (false, .msg existsButMsg)
      | none => some (false, .msg existsButMsg)
  else some (false, .msg (errText postResp))

/-- `SyftClient.delete_dataset` (client.py 65-73). -/
def delete_dataset (resp : HttpResponse) : Bool × String :=
  if resp.status = 200 ∨ resp.status = 204 then (true, "Deleted")
  else if resp.status = 404 then (true, "Not found")
  else (false, errText resp)

/-- `SyftClient.delete_endpoint` (client.py 116-124), character-for-character
the same logic as `delete_dataset` against the endpoints collection. -/
def delete_endpoint (resp : HttpResponse) : Bool × String :=
  if resp.status = 200 ∨ resp.status = 204 then (true, "Deleted")
  else if resp.status = 404 then (true, "Not found")
  else (false, errText resp)

/-! ## The two publish-selection predicates (C4) -/

/-- An endpoint record as the API returns it: a JSON object. -/
def Endpoint : Type := List (String × JsonVal)

/-- `_needs_publish` from `src/commands/publish.py` lines 8-14. -/
def needs_publish (ep : Endpoint) : Bool :=
  if !pyTruthyOpt (dictGet "published" ep) then true
  else if !pyTruthyOpt (dictGet "published_to" ep) then true
  else false

/-- The selection `cmd_publish` in `src/commands/publish.py` (line 27)
makes: `[ep for ep in endpoints if _needs_publish(ep)]`. -/
def selectUnpublishedCmd (endpoints : List Endpoint) : List Endpoint :=
  endpoints.filter needs_publish

/-- The selection `cmd_publish` in `src/main.py` (line 459) makes:
`[ep for ep in endpoints if not ep.get("published")]`. -/
def selectUnpublishedMain (endpoints : List Endpoint) : List Endpoint :=
  endpoints.filter (fun ep => !pyTruthyOpt (dictGet "published" ep))

/-! ## `src/commands/deploy.py`: the deploy command

The command's effects — API calls and file writes — are recorded as an
event trace; per-dataset responses of the remote API and of the description
generator arrive through a `DatasetEnv` oracle, and the loop is a fold over
the discovered dataset names. -/

/-- The parsed progress record the deploy loop manipulates
(`progress["deployed"]`, `["updated"]`, `["failed"]`). -/
structure Progress where
  deployed : List String
  updated : List String
  failed : List String

/-- The dataset payload built at deploy.py lines 141-150. -/
structure DatasetPayload where
  name : String
  dtype : String
  filePath : String
  filePathDescription : String
  ingestFileTypeOptions : List String
  summary : String
  tags : List String

/-- The endpoint payload built at deploy.py lines 173-184 (`dataset_id` is
present only when truthy). -/
structure EndpointPayload where
  name : String
  slug : String
  description : String
  summary : String
  responseType : String
  published : Bool
  tags : List String
  datasetId : Option JsonVal

/-- An observable effect of `cmd_deploy`: an API call or a file write. -/
inductive Event where
  | checkConn
  | createDataset (payload : DatasetPayload)
  | createEndpoint (payload : EndpointPayload)
  | publishEndpoint (slug : String)
  | saveProgress (p : Progress)
  | writeDescFile (name : String) (contents : String)

/-- The CLI arguments `cmd_deploy` consults.  The `.format(name=...)`
template strings are modelled as functions from the inserted name to the
formatted result; `fileTypesArg` is `--file-types` already split on commas
(`none` when the flag is absent or empty); `descriptions` is the JSON
mapping loaded from `--descriptions`. -/
structure DeployArgs where
  dryRun : Bool
  resume : Bool
  publish : Bool
  generateMissing : Bool
  limit : Int
  nameTemplate : String → String
  slugTemplate : String → String
  summaryTemplate : String → String
  containerDir : String
  tags : List String
  responseType : String
  fileTypesArg : Option (List String)
  descriptions : List (String × String)

/-- Per-dataset inputs from the filesystem and the remote services:
the `journal_description.md` contents when the file exists, the
`load_metadata` result, what `generate_one` returned (`none` models
failure), and the tuples the three client calls would return. -/
structure DatasetEnv where
  mdFile : Option String
  metadataItems : List JsonVal
  genResult : Option String
  createDatasetResult : Bool × ApiResult
  createEndpointResult : Bool × ApiResult
  publishResult : Bool × String

/-- Lookup in a JSON-loaded string-to-string dict (`name in descriptions`,
`descriptions[name]`). -/
def lookupStr (k : String) : List (String × String) → Option String
  | [] => none
  | (k', v) :: rest => if k' = k then some v else lookupStr k rest

/-- Python `str.strip()` on a whole string. -/
def pyStripStr (s : String) : String := String.mk (pyStripWs s.data)

/-- `name.replace("-", " ")`. -/
def pyReplaceDash (s : String) : String :=
  String.mk (s.data.map (fun c => if c = '-' then ' ' else c))

/-- A cased character (ASCII model of Python `str.title()` word logic). -/
def isCased (c : Char) : Bool := c.isAlpha

/-- Python `str.title()`: the first cased character of each word upper-case,
every following cased character lower-case. -/
def pyTitleAux : Bool → List Char → List Char
  | _, [] => []
  | prev, c :: cs =>
    if isCased c then
      (if prev then c.toLower else c.toUpper) :: pyTitleAux true cs
    else c :: pyTitleAux false cs

/-- Python `str.title()` on a whole string. -/
def pyTitle (s : String) : String := String.mk (pyTitleAux false s.data)

/-- `_resolve_description` (deploy.py 20-65): the resolved description and
the file writes performed.  `openrouterKey` is
`os.getenv("OPENROUTER_API_KEY", "")`; `mdFile` is `journal_description.md`
in the dataset directory when it exists; `items` is `load_metadata`;
`genResult` is what the `generate_one` call would return. -/
def resolveDescription (mdFile : Option String) (name : String)
    (descriptions : List (String × String)) (generateMissing : Bool) (dryRun : Bool)
    (openrouterKey : String) (items : List JsonVal) (genResult : Option String) :
    String × List Event :=
  match mdFile with
  | some txt => (pyStripStr txt, [])
  | none =>
    match lookupStr name descriptions with
    | some d => (d, [])
    | none =>
      if generateMissing then
        if openrouterKey = "" then ("", [])
        else if items.isEmpty then ("", [])
        else if dryRun then ("[would be generated]", [])
        else
          match genResult with
          | some d => if d ≠ "" then (d, [.writeDescFile name d]) else ("", [])
          | none => ("", [])
      else ("", [])

/-- What one loop iteration of `cmd_deploy` (deploy.py 118-214) contributes
to each summary counter. -/
inductive StepOutcome where
  | skippedStep
  | failedStep
  | succeededStep

/-- One iteration of the deploy loop for dataset `name`: the events emitted,
the progress record afterwards, and the counter the iteration feeds. -/
def deployStep (args : DeployArgs) (openrouterKey : String) (env : DatasetEnv)
    (name : String) (progress : Progress) (fileTypes : List String) :
    List Event × Progress × StepOutcome :=
  if args.resume && progress.deployed.contains name then
    ([], progress, .skippedStep)
  else
    let displayName := pyTitle (pyReplaceDash name)
    let descr :=
      resolveDescription env.mdFile name args.descriptions args.generateMissing args.dryRun
        openrouterKey env.metadataItems env.genResult
    let datasetName := String.mk (slugify (args.nameTemplate name).data 63)
    let containerPath := args.containerDir ++ "/" ++ name
    let datasetPayload : DatasetPayload :=
      { name := datasetName, dtype := "local_file", filePath := containerPath,
        filePathDescription := name, ingestFileTypeOptions := fileTypes,
        summary := args.summaryTemplate displayName, tags := args.tags }
    if args.dryRun then
      (descr.2, progress, .succeededStep)
    else
      let cd := env.createDatasetResult
      let ev1 := descr.2 ++ [Event.createDataset datasetPayload]
      if !cd.1 then
        let p1 := { progress with failed := progress.failed ++ [name] }
        (ev1 ++ [Event.saveProgress p1], p1, .failedStep)
      else
        let datasetId : Option JsonVal :=
          match cd.2 with
          | .json (.obj fields) => dictGet "id" fields
          | _ => none
        let endpointSlug := String.mk (slugify (args.slugTemplate name).data 63)
        let endpointPayload : EndpointPayload :=
          { name := endpointSlug, slug := endpointSlug, description := descr.1,
            summary := args.summaryTemplate displayName, responseType := args.responseType,
            published := args.publish, tags := args.tags,
            datasetId :=
              match datasetId with
              | some v => if pyTruthy v then some v else none
              | none => none }
        let ce := env.createEndpointResult
        let ev2 := ev1 ++ [Event.createEndpoint endpointPayload]
        if !ce.1 then
          let p2 := { progress with failed := progress.failed ++ [name] }
          (ev2 ++ [Event.saveProgress p2], p2, .failedStep)
        else
          let ev3 := ev2 ++ (if args.publish then [Event.publishEndpoint endpointSlug] else [])
          let p3 := { progress with deployed := progress.deployed ++ [name] }
          (ev3 ++ [Event.saveProgress p3], p3, .succeededStep)

/-- The deploy loop over the (already limited) dataset names, accumulating
events and the three counters. -/
def deployLoop (args : DeployArgs) (openrouterKey : String) (env : String → DatasetEnv)
    (fileTypes : List String) : List String → Progress →
    List Event × Progress × Nat × Nat × Nat
  | [], progress => ([], progress, 0, 0, 0)
  | name :: rest, progress =>
    let step := deployStep args openrouterKey (env name) name progress fileTypes
    let recres := deployLoop args openrouterKey env fileTypes rest step.2.1
    match step.2.2 with
    | .succeededStep =>
        (step.1 ++ recres.1, recres.2.1, recres.2.2.1 + 1, recres.2.2.2.1, recres.2.2.2.2)
    | .skippedStep =>
        (step.1 ++ recres.1, recres.2.1, recres.2.2.1, recres.2.2.2.1 + 1, recres.2.2.2.2)
    | .failedStep =>
        (step.1 ++ recres.1, recres.2.1, recres.2.2.1, recres.2.2.2.1, recres.2.2.2.2 + 1)

/-- The result of a `cmd_deploy` run: its event trace, its exit code, and
the summary counters when the run reaches the summary (`none` when it
aborts on a failed connection check). -/
structure DeployOutcome where
  events : List Event
  retCode : Int
  summary : Option (Nat × Nat × Nat)

/-- `datasets[:limit] if limit > 0` (deploy.py 111-112). -/
def pyLimit (limit : Int) (l : List String) : List String :=
  if limit > 0 then l.take limit.toNat else l

/-- `cmd_deploy` (deploy.py 68-223).  `connOk` is what `check_connection`
would report; `detectedTypes` is the `detect_file_types` result;
`storedProgress` is the parsed progress file when it exists; `datasets` is
the `discover_datasets` listing; `env` gives each dataset its responses. -/
def cmd_deploy (args : DeployArgs) (openrouterKey : String) (connOk : Bool)
    (detectedTypes : List String) (storedProgress : Option Progress)
    (datasets : List String) (env : String → DatasetEnv) : DeployOutcome :=
  if !args.dryRun && !connOk then
    { events := [Event.checkConn], retCode := 1, summary := none }
  else
    let connEvents := if args.dryRun then [] else [Event.checkConn]
    let fileTypes :=
      match args.fileTypesArg with
      | some ts => ts
      | none => if detectedTypes.isEmpty then [".pdf", ".json"] else detectedTypes
    let progress0 :=
      if args.resume then
        match storedProgress with
        | some p => p
        | none => { deployed := [], updated := [], failed := [] }
      else { deployed := [], updated := [], failed := [] }
    let names := pyLimit args.limit datasets
    let res := deployLoop args openrouterKey env fileTypes names progress0
    { events := connEvents ++ res.1,
      retCode := if res.2.2.2.2 = 0 then 0 else 1,
      summary := some (res.2.2.1, res.2.2.2.1, res.2.2.2.2) }

/-! ## Claim theorems -/

/-- C6: for every JSON progress record, `save_progress` followed by
`load_progress` on the same path returns the record saved, and
`load_progress` on a path that does not exist returns exactly
`\x7b"deployed": [], "updated": [], "failed": []\x7d`. -/
theorem save_load_progress_roundtrip (fs : FileSys) (path : String) (progress : JsonVal) :
    load_progress (save_progress fs path progress) path = some progress ∧
    (fs path = none → load_progress fs path = some defaultProgress) := by
  constructor
  · simp only [load_progress, save_progress, if_pos rfl]
    exact jsonParse_jsonDump progress
  · intro h
    simp only [load_progress, h]

theorem save_load_progress_roundtrip_witness :
    load_progress (fun _ => none) "deploy_progress.json" = some defaultProgress :=
  (save_load_progress_roundtrip (fun _ => none) "deploy_progress.json" defaultProgress).2 rfl

/-- The input exhibiting the slugify truncation bug: a 73-character
kebab-case name whose final hyphen-separated segment is 70 characters. -/
def slugifyBugInput : List Char := 'a' :: 'a' :: '-' :: List.replicate 70 'b'

set_option maxRecDepth 8192 in
/-- C3: `slugify`'s own documentation says it truncates to `max_length`,
but on an input whose suffix after the last hyphen is longer than
`max_length` the truncation arithmetic goes negative and the input is
returned whole: 73 characters despite `max_length = 63`. -/
theorem slugify_length_bug :
    slugify slugifyBugInput 63 = slugifyBugInput ∧
    (slugify slugifyBugInput 63).length = 73 := by
  constructor
  · rfl
  · rfl

/-- The already-exists POST response of the C1 counterexample. -/
def c1PostResp : HttpResponse := { status := 409, text := "Dataset already exists" }

/-- The GET responder of the C1 counterexample: the fetch succeeds with
status 200 but its body is the empty JSON object. -/
def c1GetResp : String → HttpResponse := fun _ => { status := 200, text := "\x7b\x7d" }

/-- C1 counterexample: the fetch in the already-exists branch returns 200,
yet `create_dataset` returns `(False, "Dataset exists but couldn't fetch")`
because the parsed body `\x7b\x7d` is falsy under Python truthiness. -/
theorem create_dataset_c1_counterexample :
    create_dataset c1PostResp c1GetResp "my-data" = some (false, .msg existsButMsg) ∧
    (c1GetResp "my-data").status = 200 := by
  constructor
  · rfl
  · rfl

/-- C1 (amended): `create_dataset` returns `(True, parsed body)` on 201;
on 409 or an already-exists body it fetches the dataset named
`payload["name"]` and returns `(True, record)` when that fetch returns 200
with a truthy body, and `(False, "Dataset exists but couldn't fetch")` when
the fetch has another status or a falsy body; any other status yields
`(False, message beginning with the status code)`. -/
theorem create_dataset_spec (post : HttpResponse) (getResp : String → HttpResponse)
    (name : String) :
    (∀ v, post.status = 201 → jsonParse post.text = some v →
      create_dataset post getResp name = some (true, .json v)) ∧
    (post.status ≠ 201 →
      (post.status = 409 ∨ containsSub (strLower post.text) "already exists" = true) →
      ((getResp name).status ≠ 200 →
        create_dataset post getResp name = some (false, .msg existsButMsg)) ∧
      (∀ v, (getResp name).status = 200 → jsonParse (getResp name).text = some v →
        (pyTruthy v = true → create_dataset post getResp name = some (true, .json v)) ∧
        (pyTruthy v = false →
          create_dataset post getResp name = some (false, .msg existsButMsg)))) ∧
    (post.status ≠ 201 → post.status ≠ 409 →
      containsSub (strLower post.text) "already exists" = false →
      ∃ t, create_dataset post getResp name = some (false, .msg (toString post.status ++ t))) := by
  refine ⟨?_, ?_, ?_⟩
  · intro v h1 h2
    simp [create_dataset, h1, h2]
  · intro h1 h2
    have hcond : (decide (post.status = 409) || containsSub (strLower post.text) "already exists") =
        true := by
      rcases h2 with h | h
      · simp [h]
      · simp [h]
    constructor
    · intro h3
      simp [create_dataset, if_neg h1, hcond, get_dataset, if_neg h3]
    · intro v h3 h4
      constructor
      · intro h5
        simp [create_dataset, if_neg h1, hcond, get_dataset, h3, h4, h5]
      · intro h5
        simp [create_dataset, if_neg h1, hcond, get_dataset, h3, h4, h5]
  · intro h1 h2 h3
    refine ⟨": " ++ pyTake 200 post.text, ?_⟩
    have hcond : (decide (post.status = 409) || containsSub (strLower post.text) "already exists") =
        false := by simp [h2, h3]
    simp [create_dataset, if_neg h1, hcond, errText, String.append_assoc]

theorem create_dataset_spec_witness :
    ∃ t, create_dataset ⟨500, "boom"⟩ (fun _ => ⟨404, ""⟩) "x" =
      some (false, ApiResult.msg (toString 500 ++ t)) :=
  (create_dataset_spec ⟨500, "boom"⟩ (fun _ => ⟨404, ""⟩) "x").2.2 (by decide) (by decide)
    (by decide)

/-- C5: the two delete wrappers report success on 200/204 as "Deleted",
report success on 404 as "Not found" (deleting an absent resource counts as
success), and on any other status return failure with a message beginning
with the status code. -/
theorem delete_spec (resp : HttpResponse) :
    ((resp.status = 200 ∨ resp.status = 204) →
      delete_dataset resp = (true, "Deleted") ∧ delete_endpoint resp = (true, "Deleted")) ∧
    (resp.status ≠ 200 → resp.status ≠ 204 → resp.status = 404 →
      delete_dataset resp = (true, "Not found") ∧
      delete_endpoint resp = (true, "Not found")) ∧
    (resp.status ≠ 200 → resp.status ≠ 204 → resp.status ≠ 404 →
      (delete_dataset resp).1 = false ∧ (delete_endpoint resp).1 = false ∧
      ∃ t, (delete_dataset resp).2 = toString resp.status ++ t ∧
        (delete_endpoint resp).2 = toString resp.status ++ t) := by
  refine ⟨?_, ?_, ?_⟩
  · intro h
    exact ⟨by rw [delete_dataset, if_pos h], by rw [delete_endpoint, if_pos h]⟩
  · intro h1 h2 h3
    have hn : ¬(resp.status = 200 ∨ resp.status = 204) := by tauto
    exact ⟨by rw [delete_dataset, if_neg hn, if_pos h3],
      by rw [delete_endpoint, if_neg hn, if_pos h3]⟩
  · intro h1 h2 h3
    have hn : ¬(resp.status = 200 ∨ resp.status = 204) := by tauto
    refine ⟨by rw [delete_dataset, if_neg hn, if_neg h3],
      by rw [delete_endpoint, if_neg hn, if_neg h3],
      ": " ++ pyTake 200 resp.text, ?_, ?_⟩
    · rw [delete_dataset, if_neg hn, if_neg h3]
      show errText resp = _
      rw [errText, String.append_assoc]
    · rw [delete_endpoint, if_neg hn, if_neg h3]
      show errText resp = _
      rw [errText, String.append_assoc]

theorem delete_spec_witness :
    delete_dataset ⟨404, ""⟩ = (true, "Not found") ∧
    delete_endpoint ⟨404, ""⟩ = (true, "Not found") :=
  (delete_spec ⟨404, ""⟩).2.1 (by decide) (by decide) rfl

/-- The endpoint record of the C4 counterexample: published, but synced to
no marketplace. -/
def c4Endpoint : Endpoint :=
  [("slug", .str "my-endpoint"), ("published", .bool true), ("published_to", .arr [])]

/-- C4 counterexample: on an endpoint with a truthy `published` field and
an empty `published_to`, the `main.py` variant selects nothing while the
`commands/publish.py` variant selects the endpoint — the two do not select
the same subset. -/
theorem publish_select_counterexample :
    selectUnpublishedMain [c4Endpoint] = [] ∧
    selectUnpublishedCmd [c4Endpoint] = [c4Endpoint] := by
  constructor
  · rfl
  · rfl

/-- C4 (amended): the `main.py` selection (falsy `published`) is always a
sublist of the `commands/publish.py` selection (falsy `published` or falsy
`published_to`), and on every endpoint whose `published_to` is truthy the
two predicates agree. -/
theorem publish_select_spec (endpoints : List Endpoint) :
    (selectUnpublishedMain endpoints).Sublist (selectUnpublishedCmd endpoints) ∧
    (∀ ep : Endpoint, pyTruthyOpt (dictGet "published_to" ep) = true →
      needs_publish ep = !pyTruthyOpt (dictGet "published" ep)) := by
  constructor
  · apply List.monotone_filter_right
    intro ep h
    rw [needs_publish, if_pos h]
  · intro ep h
    cases hPub : pyTruthyOpt (dictGet "published" ep) with
    | true => simp [needs_publish, h, hPub]
    | false => simp [needs_publish, hPub]

/-- An endpoint already synced to a marketplace, for the C4 witness. -/
def c4SyncedEndpoint : Endpoint :=
  [("slug", .str "done"), ("published", .bool true), ("published_to", .arr [.str "m"])]

theorem publish_select_spec_witness :
    (selectUnpublishedMain [c4Endpoint]).Sublist (selectUnpublishedCmd [c4Endpoint]) ∧
    needs_publish c4SyncedEndpoint = !pyTruthyOpt (dictGet "published" c4SyncedEndpoint) :=
  ⟨(publish_select_spec [c4Endpoint]).1,
    (publish_select_spec []).2 c4SyncedEndpoint rfl⟩

/-- C10: `_resolve_description` resolves in strict priority order: the
stripped `journal_description.md` contents when the file exists; else the
`--descriptions` JSON entry for the name; else, with `--generate-missing`,
the empty string when the API key or the metadata is missing or when
generation fails; else the empty string. -/
theorem resolveDescription_spec (mdFile : Option String) (name : String)
    (descriptions : List (String × String)) (gm dr : Bool) (key : String)
    (items : List JsonVal) (gen : Option String) :
    (∀ txt, mdFile = some txt →
      (resolveDescription mdFile name descriptions gm dr key items gen).1 =
        pyStripStr txt) ∧
    (mdFile = none → ∀ d, lookupStr name descriptions = some d →
      (resolveDescription mdFile name descriptions gm dr key items gen).1 = d) ∧
    (mdFile = none → lookupStr name descriptions = none → gm = true →
      (key = "" ∨ items = []) →
      (resolveDescription mdFile name descriptions gm dr key items gen).1 = "") ∧
    (mdFile = none → lookupStr name descriptions = none → gm = true → key ≠ "" →
      items ≠ [] → dr = false → (gen = none ∨ gen = some "") →
      (resolveDescription mdFile name descriptions gm dr key items gen).1 = "") ∧
    (mdFile = none → lookupStr name descriptions = none → gm = false →
      (resolveDescription mdFile name descriptions gm dr key items gen).1 = "") := by
  refine ⟨?_, ?_, ?_, ?_, ?_⟩
  · intro txt h
    subst h
    rfl
  · intro h d hd
    subst h
    simp [resolveDescription, hd]
  · intro h hd hgm hke
    subst h
    rcases hke with hk | hi
    · simp [resolveDescription, hd, hgm, hk]
    · subst hi
      simp [resolveDescription, hd, hgm]
  · intro h hd hgm hk hi hdr hgen
    subst h
    subst hdr
    rcases hgen with hg | hg
    · subst hg
      simp [resolveDescription, hd, hgm, hk, hi]
    · subst hg
      simp [resolveDescription, hd, hgm, hk, hi]
  · intro h hd hgm
    subst h
    subst hgm
    simp [resolveDescription, hd]

theorem resolveDescription_spec_witness :
    (resolveDescription (some "  A journal.  ") "j" [] false false "" [] none).1 =
      pyStripStr "  A journal.  " :=
  (resolveDescription_spec (some "  A journal.  ") "j" [] false false "" [] none).1
    "  A journal.  " rfl

/-- C9: in a non-dry run with `--publish`, when dataset and endpoint
creation succeed but the marketplace publish call fails, the iteration
still succeeds: the name is appended to `deployed` and `failed` is
untouched. -/
theorem deployStep_publish_failure (args : DeployArgs) (orKey : String) (env : DatasetEnv)
    (name : String) (progress : Progress) (fileTypes : List String)
    (hdry : args.dryRun = false) (hpub : args.publish = true)
    (hskip : (args.resume && progress.deployed.contains name) = false)
    (hcd : env.createDatasetResult.1 = true) (hce : env.createEndpointResult.1 = true)
    (hpf : env.publishResult.1 = false) :
    (deployStep args orKey env name progress fileTypes).2.2 = .succeededStep ∧
    (deployStep args orKey env name progress fileTypes).2.1.deployed =
      progress.deployed ++ [name] ∧
    (deployStep args orKey env name progress fileTypes).2.1.failed = progress.failed := by
  have hskip' : ¬(args.resume = true ∧ name ∈ progress.deployed) := by
    rintro ⟨h1, h2⟩
    have hc : progress.deployed.contains name = true := by simpa using h2
    rw [h1, hc] at hskip
    exact absurd hskip (by simp)
  refine ⟨?_, ?_, ?_⟩ <;> simp [deployStep, hskip', hdry, hcd, hce]

/-- Concrete arguments for the deploy witnesses. -/
def wArgs : DeployArgs :=
  { dryRun := false, resume := false, publish := true, generateMissing := false, limit := 0,
    nameTemplate := id, slugTemplate := id, summaryTemplate := id, containerDir := "/data",
    tags := [], responseType := "text", fileTypesArg := some [".json"], descriptions := [] }

/-- A concrete per-dataset environment in which both creates succeed and the
publish call fails. -/
def wEnv : DatasetEnv :=
  { mdFile := none, metadataItems := [], genResult := none,
    createDatasetResult := (true, .json (.obj [("id", .num 7)])),
    createEndpointResult := (true, .json (.obj [])),
    publishResult := (false, "500: boom") }

theorem deployStep_publish_failure_witness :
    (deployStep wArgs "" wEnv "ds" ⟨[], [], []⟩ [".json"]).2.2 = .succeededStep ∧
    (deployStep wArgs "" wEnv "ds" ⟨[], [], []⟩ [".json"]).2.1.deployed =
      Progress.deployed ⟨[], [], []⟩ ++ ["ds"] ∧
    (deployStep wArgs "" wEnv "ds" ⟨[], [], []⟩ [".json"]).2.1.failed =
      Progress.failed ⟨[], [], []⟩ :=
  deployStep_publish_failure wArgs "" wEnv "ds" ⟨[], [], []⟩ [".json"] rfl rfl rfl rfl rfl rfl

theorem getLast_cons_append_one {α : Type} (B : List α) (c x : α) :
    (c :: (B ++ [x])).getLast? = some x := by
  induction B generalizing c with
  | nil => rfl
  | cons b bs ih => exact ih b

/-- C2: with `--resume`, a name already in the progress record's `deployed`
list is skipped with no API call and no write; in a non-dry run a
successfully completed dataset ends its iteration with the progress record
extended by its name and saved, and the loop emits that save before any
event of the following datasets; a later resume run skips the name. -/
theorem cmd_deploy_resume_spec (args : DeployArgs) (orKey : String) (env : DatasetEnv)
    (envF : String → DatasetEnv) (fileTypes : List String) (name : String)
    (rest : List String) (progress : Progress) :
    (args.resume = true → progress.deployed.contains name = true →
      deployStep args orKey env name progress fileTypes = ([], progress, .skippedStep)) ∧
    (args.dryRun = false → ∀ ev p',
      deployStep args orKey env name progress fileTypes = (ev, p', .succeededStep) →
      p'.deployed = progress.deployed ++ [name] ∧
      p'.deployed.contains name = true ∧
      (∃ pre, ev = pre ++ [Event.saveProgress p']) ∧
      (args.resume = true → ∀ env2 : DatasetEnv,
        deployStep args orKey env2 name p' fileTypes = ([], p', .skippedStep))) ∧
    ((deployLoop args orKey envF fileTypes (name :: rest) progress).1 =
      (deployStep args orKey (envF name) name progress fileTypes).1 ++
        (deployLoop args orKey envF fileTypes rest
          (deployStep args orKey (envF name) name progress fileTypes).2.1).1) := by
  refine ⟨?_, ?_, ?_⟩
  · intro h1 h2
    have h2' : name ∈ progress.deployed := by simpa using h2
    simp [deployStep, h1, h2']
  · intro hdry ev p' hstep
    have hev : (deployStep args orKey env name progress fileTypes).1 = ev := by rw [hstep]
    have hp : (deployStep args orKey env name progress fileTypes).2.1 = p' := by rw [hstep]
    have ho : (deployStep args orKey env name progress fileTypes).2.2 = .succeededStep := by
      rw [hstep]
    by_cases hskip : args.resume = true ∧ name ∈ progress.deployed
    · have : (deployStep args orKey env name progress fileTypes).2.2 = .skippedStep := by
        simp [deployStep, hskip.1, hskip.2]
      rw [ho] at this
      simp at this
    · cases hcd : env.createDatasetResult.1 with
      | false =>
        have : (deployStep args orKey env name progress fileTypes).2.2 = .failedStep := by
          simp [deployStep, hskip, hdry, hcd]
        rw [ho] at this
        simp at this
      | true =>
        cases hce : env.createEndpointResult.1 with
        | false =>
          have : (deployStep args orKey env name progress fileTypes).2.2 = .failedStep := by
            simp [deployStep, hskip, hdry, hcd, hce]
          rw [ho] at this
          simp at this
        | true =>
          have hdep : (deployStep args orKey env name progress fileTypes).2.1.deployed =
              progress.deployed ++ [name] := by
            simp [deployStep, hskip, hdry, hcd, hce]
          have hfl : p'.deployed = progress.deployed ++ [name] := by
            rw [← hp]
            exact hdep
          have hcontains : p'.deployed.contains name = true := by
            rw [hfl]
            simp
          refine ⟨hfl, hcontains, ?_, ?_⟩
          · have hlast : ((deployStep args orKey env name progress fileTypes).1).getLast? =
                some (Event.saveProgress
                  ((deployStep args orKey env name progress fileTypes).2.1)) := by
              simp [deployStep, hskip, hdry, hcd, hce, List.getLast?_append,
                List.getLast?_concat, getLast_cons_append_one]
            rw [hev, hp] at hlast
            have hne : ev ≠ [] := by
              intro hnil
              rw [hnil] at hlast
              simp at hlast
            refine ⟨ev.dropLast, ?_⟩
            conv_lhs => rw [← List.dropLast_append_getLast hne]
            rw [List.getLast?_eq_getLast _ hne] at hlast
            simp only [Option.some.injEq] at hlast
            rw [hlast]
          · intro hres env2
            have hmem : name ∈ p'.deployed := by simpa using hcontains
            simp [deployStep, hres, hmem]
  · simp only [deployLoop]
    cases h : (deployStep args orKey (envF name) name progress fileTypes).2.2 <;> simp [h]

/-- Arguments identical to `wArgs` but resuming. -/
def wResumeArgs : DeployArgs :=
  { wArgs with resume := true }

theorem cmd_deploy_resume_spec_witness :
    deployStep wResumeArgs "" wEnv "ds" ⟨["ds"], [], []⟩ [".json"] =
      ([], ⟨["ds"], [], []⟩, .skippedStep) :=
  (cmd_deploy_resume_spec wResumeArgs "" wEnv (fun _ => wEnv) [".json"] "ds" []
    ⟨["ds"], [], []⟩).1 rfl rfl

theorem resolveDescription_dry_events (md : Option String) (name : String)
    (descs : List (String × String)) (gm : Bool) (key : String) (items : List JsonVal)
    (gen : Option String) :
    (resolveDescription md name descs gm true key items gen).2 = [] := by
  cases md with
  | some txt => rfl
  | none =>
    cases hl : lookupStr name descs with
    | some d => simp [resolveDescription, hl]
    | none =>
      cases gm with
      | false => simp [resolveDescription, hl]
      | true =>
        by_cases hk : key = ""
        · simp [resolveDescription, hl, hk]
        · by_cases hi : items.isEmpty
          · simp [resolveDescription, hl, hk, hi]
          · simp [resolveDescription, hl, hk, hi]

theorem deployStep_dry_events (args : DeployArgs) (orKey : String) (env : DatasetEnv)
    (name : String) (progress : Progress) (fileTypes : List String)
    (hdry : args.dryRun = true) :
    (deployStep args orKey env name progress fileTypes).1 = [] := by
  by_cases hskip : args.resume = true ∧ name ∈ progress.deployed
  · simp [deployStep, hskip.1, hskip.2]
  · simp [deployStep, hskip, hdry, resolveDescription_dry_events]

theorem deployLoop_dry_events (args : DeployArgs) (orKey : String)
    (env : String → DatasetEnv) (fileTypes : List String) (hdry : args.dryRun = true)
    (names : List String) : ∀ progress,
    (deployLoop args orKey env fileTypes names progress).1 = [] := by
  induction names with
  | nil => intro progress; rfl
  | cons n ns ih =>
    intro progress
    simp only [deployLoop]
    cases h : (deployStep args orKey (env n) n progress fileTypes).2.2 <;>
      simp [h, deployStep_dry_events args orKey (env n) n progress fileTypes hdry, ih]

/-- C8: a dry run changes no state: `cmd_deploy` with `--dry-run` emits no
connection check, no create or publish call, no progress-file save and no
description-file write — its event trace is empty. -/
theorem cmd_deploy_dry_frame (args : DeployArgs) (orKey : String) (connOk : Bool)
    (detectedTypes : List String) (storedProgress : Option Progress)
    (datasets : List String) (env : String → DatasetEnv) (hdry : args.dryRun = true) :
    (cmd_deploy args orKey connOk detectedTypes storedProgress datasets env).events = [] := by
  rw [cmd_deploy.eq_def, if_neg (by simp [hdry])]
  simp [hdry, deployLoop_dry_events args orKey env _ hdry]

/-- Arguments identical to `wArgs` but in dry-run mode. -/
def wDryArgs : DeployArgs :=
  { wArgs with dryRun := true }

theorem cmd_deploy_dry_frame_witness :
    (cmd_deploy wDryArgs "" false [] none ["ds-a", "ds-b"] (fun _ => wEnv)).events = [] :=
  cmd_deploy_dry_frame wDryArgs "" false [] none ["ds-a", "ds-b"] (fun _ => wEnv) rfl

theorem deployLoop_counts (args : DeployArgs) (orKey : String) (env : String → DatasetEnv)
    (fileTypes : List String) (names : List String) : ∀ progress,
    (deployLoop args orKey env fileTypes names progress).2.2.1 +
      (deployLoop args orKey env fileTypes names progress).2.2.2.1 +
      (deployLoop args orKey env fileTypes names progress).2.2.2.2 = names.length := by
  induction names with
  | nil => intro progress; rfl
  | cons n ns ih =>
    intro progress
    simp only [deployLoop]
    have := ih (deployStep args orKey (env n) n progress fileTypes).2.1
    cases h : (deployStep args orKey (env n) n progress fileTypes).2.2 <;>
      simp [h, List.length_cons] <;> omega

/-- C7: whenever `cmd_deploy` reaches its summary, the three printed
counters sum to the number of datasets iterated after `--limit`, and the
exit code is zero exactly when no dataset failed. -/
theorem cmd_deploy_summary_spec (args : DeployArgs) (orKey : String) (connOk : Bool)
    (detectedTypes : List String) (storedProgress : Option Progress)
    (datasets : List String) (env : String → DatasetEnv) (s k fl : Nat)
    (hsum : (cmd_deploy args orKey connOk detectedTypes storedProgress datasets env).summary =
      some (s, k, fl)) :
    s + k + fl = (pyLimit args.limit datasets).length ∧
    ((cmd_deploy args orKey connOk detectedTypes storedProgress datasets env).retCode = 0 ↔
      fl = 0) := by
  by_cases habort : (!args.dryRun && !connOk) = true
  · rw [cmd_deploy.eq_def, if_pos habort] at hsum
    simp at hsum
  · rw [cmd_deploy.eq_def, if_neg habort] at hsum ⊢
    simp only [Option.some.injEq, Prod.mk.injEq] at hsum
    obtain ⟨h1, h2, h3⟩ := hsum
    subst h1
    subst h2
    subst h3
    constructor
    · exact deployLoop_counts args orKey env _ _ _
    · have hiff : ∀ n : Nat, ((if n = 0 then (0 : Int) else 1) = 0 ↔ n = 0) := by
        intro n
        split_ifs with h
        · simp [h]
        · simp [h]
      dsimp only
      exact hiff _

theorem cmd_deploy_summary_spec_witness :
    0 + 0 + 0 = (pyLimit wArgs.limit ([] : List String)).length ∧
    ((cmd_deploy wArgs "" true [] none [] (fun _ => wEnv)).retCode = 0 ↔ 0 = 0) :=
  cmd_deploy_summary_spec wArgs "" true [] none [] (fun _ => wEnv) 0 0 0 rfl
